import Mathlib

/-!
Verification of the item lifecycle and time-based promotion engine of the
impulse-pause web application (package `internal/web`, file `handlers.go`,
with the in-memory store path of `storage.go`).

Modelling conventions (shallow embedding):

* Instants and durations are rational numbers of nanoseconds (`ℚ`).
  Go's `time.Time`/`time.Duration` arithmetic on the code paths modelled
  here is addition and comparison of nanosecond counts; `float64`
  arithmetic (`strconv.ParseFloat` results, `hours * float64(time.Hour)`)
  is idealised as exact rational arithmetic.  A `float64` value itself is
  modelled by `GoFloat`: an exact rational, one of the two infinities, or
  NaN, which is what the sign tests in the handlers distinguish.
* `strconv.ParseFloat` is modelled by `goParseFloat` over the decimal
  grammar (sign, digits, one optional dot, optional exponent, underscores
  between digits, the special `inf`/`infinity`/`nan` forms,
  case-insensitive, and out-of-range values as errors).  Go's hexadecimal
  float forms are not modelled; no claim concerns them.
* `strconv.Atoi` is modelled by `goAtoi` (sign, decimal digits, 64-bit
  range).
* `time.ParseInLocation` with the fixed layout `2006-01-02T15:04` is
  modelled by `goParseMinuteLayout` (exact shape `YYYY-MM-DDTHH:MM` with
  calendar validation) together with `wallToInstant`, which converts a
  wall-clock reading plus a zone offset in seconds into an absolute
  instant via the standard civil-date-to-epoch-day computation.  The
  server's local zone (`time.Local`) is modelled by an explicit
  `localOffsetSec` parameter.
* Statuses and wait presets are the literal strings of the source.
* HTTP handlers are modelled from the point where the form values have
  been read (each form value is trimmed exactly where the source trims
  it); rendering, routing and the SQLite branch (`a.db != nil`) are out
  of scope — the memory-only store path (`a.db == nil`), whose locked
  store helpers are no-ops apart from ID assignment, is the modelled one.
  Tag-list assembly (`parseTagsFromForm`) is treated as an opaque string
  input, as no claim concerns it.
-/

set_option maxRecDepth 4000

deriving instance DecidableEq for Except

/-- A Go `float64` as distinguished by the handlers: an exact finite value
(idealised as a rational), an infinity, or NaN. -/
inductive GoFloat where
  | finite (q : ℚ)
  | posInf
  | negInf
  | nan
deriving DecidableEq

/-- The Go comparison `v <= 0` on a `float64`: false on NaN and on `+Inf`. -/
def GoFloat.le0 : GoFloat → Bool
  | .finite q => q ≤ 0
  | .posInf => false
  | .negInf => true
  | .nan => false

/-- Whether a `GoFloat` is a strictly positive finite (real) value. -/
def GoFloat.isFinitePos : GoFloat → Bool
  | .finite q => 0 < q
  | _ => false

/-- Go's `unicode.IsSpace`: ASCII whitespace plus the Unicode space
characters (NEL, NBSP, OGHAM, the EN-QUAD…HAIR-SPACE range, LS, PS,
NNBSP, MMSP, IDSP). -/
def goIsSpace (c : Char) : Bool :=
  let n := c.toNat
  n = 0x20 ∨ n = 0x9 ∨ n = 0xa ∨ n = 0xb ∨ n = 0xc ∨ n = 0xd ∨
  n = 0x85 ∨ n = 0xa0 ∨ n = 0x1680 ∨
  (0x2000 ≤ n ∧ n ≤ 0x200a) ∨
  n = 0x2028 ∨ n = 0x2029 ∨ n = 0x202f ∨ n = 0x205f ∨ n = 0x3000

/-- Go's `strings.TrimSpace`. -/
def goTrimSpace (s : String) : String :=
  ⟨((s.toList.dropWhile goIsSpace).reverse.dropWhile goIsSpace).reverse⟩

/-- Value of a list of decimal digit characters. -/
def digitsVal (cs : List Char) : Nat :=
  cs.foldl (fun a c => a * 10 + (c.toNat - 48)) 0

/-- Go's underscore rule for decimal numeric literals: every `_` sits
between two digits.  `prev` is the character before the current list. -/
def underscoreOKFrom : Option Char → List Char → Bool
  | _, [] => true
  | prev, c :: rest =>
    if c = '_' then
      match prev, rest with
      | some p, d :: _ => p.isDigit && d.isDigit && underscoreOKFrom (some c) rest
      | _, _ => false
    else underscoreOKFrom (some c) rest

/-- Split a character list at the first exponent marker `e`/`E`. -/
def splitExp : List Char → List Char × Option (List Char)
  | [] => ([], none)
  | c :: rest =>
    if c = 'e' ∨ c = 'E' then ([], some rest)
    else
      let (m, e) := splitExp rest
      (c :: m, e)

/-- Split a character list at the first `.` (the dot is dropped). -/
def splitDot : List Char → List Char × List Char
  | [] => ([], [])
  | c :: rest =>
    if c = '.' then ([], rest)
    else
      let (a, b) := splitDot rest
      (c :: a, b)

/-- Optional sign followed by at least one decimal digit, as an integer. -/
def parseSignedDigits (cs : List Char) : Option Int :=
  let (neg, body) :=
    match cs with
    | '+' :: r => (false, r)
    | '-' :: r => (true, r)
    | r => (false, r)
  if body.isEmpty ∨ ¬ body.all Char.isDigit then none
  else some (if neg then -(digitsVal body : Int) else (digitsVal body : Int))

/-- Smallest magnitude at which `strconv.ParseFloat` reports a 64-bit
overflow: the rounding boundary to infinity, `2^1024 - 2^970`. -/
def float64OverflowBound : Int :=
  179769313486231580793728971405303415079934132710037826936173778980444968292764750946649017977587207096330286416692887910946555547851940402630657488671505820681908902000708383676273854845817711531764475730270069855571366959622842914819860834936475292719074168444365510704342711559699508093042880177904174497792

/-- Reciprocal of the largest positive magnitude that `strconv.ParseFloat`
rounds to zero (reporting a 64-bit underflow range error): `2^1075`. -/
def float64UnderflowBoundDen : Int :=
  404804506614621236704990693437834614099113299528284236713802716054860679135990693783920767402874248990374155728633623822779617474771586953734026799881477019843034848553132722728933815484186432682479535356945490137124014966849385397236206711298319112681620113024717539104666829230461005064372655017292012526615415482186989568

/-- Model of `strconv.ParseFloat(s, 64)`.  `Except Unit` because the
handlers only test `err != nil`.  Accepts an optional sign, the special
forms `inf`/`infinity` (signed or not) and `nan` (unsigned only),
otherwise a decimal mantissa with at most one dot and at least one digit,
an optional `e`/`E` exponent, and underscores between digits; values out
of `float64` range are errors, all other values exact rationals (the
magnitude `n * 10^(e-k)` is kept as an explicit integer fraction
`pnum/pden` so that the range checks are integer comparisons). -/
def goParseFloat (s : String) : Except Unit GoFloat :=
  let cs := s.toList
  if cs.isEmpty then .error ()
  else
    let sr : Bool × Bool × List Char :=
      match cs with
      | '+' :: r => (false, true, r)
      | '-' :: r => (true, true, r)
      | r => (false, false, r)
    let neg := sr.1
    let hasSign := sr.2.1
    let rest := sr.2.2
    let low := rest.map Char.toLower
    if low = "inf".toList ∨ low = "infinity".toList then
      .ok (if neg then .negInf else .posInf)
    else if ¬ hasSign ∧ low = "nan".toList then .ok .nan
    else if ¬ underscoreOKFrom none cs then .error ()
    else
      let body := rest.filter (fun c => ¬ c = '_')
      let (mant, expPart) := splitExp body
      let (intPart, fracPart) := splitDot mant
      if ¬ intPart.all Char.isDigit ∨ ¬ fracPart.all Char.isDigit ∨
          ¬ mant.count '.' ≤ 1 ∨ (intPart.isEmpty ∧ fracPart.isEmpty) then
        .error ()
      else
        let expVal : Option Int :=
          match expPart with
          | none => some 0
          | some e => parseSignedDigits e
        match expVal with
        | none => .error ()
        | some e =>
          let k : Int := fracPart.length
          let n : Int := (digitsVal (intPart ++ fracPart) : Int)
          if n = 0 then .ok (.finite 0)
          else
            let pnum : Int := if k ≤ e then n * (10 : Int) ^ (e - k).toNat else n
            let pden : Int := if k ≤ e then 1 else (10 : Int) ^ (k - e).toNat
            if float64OverflowBound * pden ≤ pnum then .error ()
            else if pnum * float64UnderflowBoundDen ≤ pden then .error ()
            else .ok (.finite (Rat.divInt (if neg then -pnum else pnum) pden))

/-- Model of `strconv.Atoi` (`ParseInt(s, 10, 0)` on a 64-bit platform). -/
def goAtoi (s : String) : Except Unit Int :=
  match parseSignedDigits s.toList with
  | none => .error ()
  | some v => if v < -(2 ^ 63) ∨ (2 ^ 63 - 1 : Int) < v then .error () else .ok v

/-- `time.Hour` in nanoseconds. -/
def timeHourNS : Int := 3600 * 1000000000

/-- The Go expression `time.Duration(hours * float64(time.Hour))` for a
parsed custom-hours value `q`.  For a finite value the multiplication is
idealised as exact before the conversion truncates toward zero to whole
nanoseconds (`q * 3600e9` truncated is `(q.num * 3600e9).tdiv q.den`);
for `±Inf`/NaN the `float64 → int64` conversion is
implementation-defined in Go, modelled by the amd64 result `-2^63` ns. -/
def goFloatTimesHour : GoFloat → Int
  | .finite q => (q.num * timeHourNS).tdiv q.den
  | _ => -(2 ^ 63)

/-- `parseWaitDuration` (handlers.go:933-955): wait preset and
custom-hours string to a duration, or a validation error. -/
def parseWaitDuration (waitPreset waitCustomHours : String) : Except String Int :=
  let preset0 := goTrimSpace waitPreset
  let preset := if preset0 = "" then "24h" else preset0
  if preset = "24h" then .ok (24 * timeHourNS)
  else if preset = "7d" then .ok (7 * 24 * timeHourNS)
  else if preset = "30d" then .ok (30 * 24 * timeHourNS)
  else if preset = "custom" then
    match goParseFloat (goTrimSpace waitCustomHours) with
    | .error _ => .error "Please enter a valid number of custom hours (> 0)."
    | .ok hours =>
      if hours.le0 then .error "Please enter a valid number of custom hours (> 0)."
      else .ok (goFloatTimesHour hours)
  else .error "Please select a valid wait time."

/-- `normalizeItemWaitPreset` (handlers.go:957-964). -/
def normalizeItemWaitPreset (raw : String) : String :=
  let t := goTrimSpace raw
  if t = "7d" ∨ t = "30d" ∨ t = "custom" ∨ t = "date" then t else "24h"

/-- `defaultWaitPreset` (handlers.go:966-968). -/
def defaultWaitPreset (raw : String) : String :=
  normalizeItemWaitPreset raw

/-- `activeStatusForPurchaseAllowedAt` (handlers.go:926-931):
`"Waiting"` iff the eligibility instant is strictly after `now`. -/
def activeStatusForPurchaseAllowedAt (purchaseAllowedAt now : Int) : String :=
  if now < purchaseAllowedAt then "Waiting" else "Ready to buy"

/-- Leap-year rule of the proleptic Gregorian calendar (as in Go's
`time` package). -/
def isLeapYear (y : Int) : Bool :=
  y % 4 = 0 ∧ (¬ y % 100 = 0 ∨ y % 400 = 0)

/-- Days in a month (1-12). -/
def daysInMonth (y m : Int) : Int :=
  if m = 2 then (if isLeapYear y then 29 else 28)
  else if m = 4 ∨ m = 6 ∨ m = 9 ∨ m = 11 then 30
  else 31

/-- Days from 1970-01-01 to the civil date y-m-d (standard
days-from-civil computation). -/
def daysFromCivil (y m d : Int) : Int :=
  let y' := if m ≤ 2 then y - 1 else y
  let era := Int.fdiv y' 400
  let yoe := y' - era * 400
  let mp := Int.emod (m + 9) 12
  let doy := Int.fdiv (153 * mp + 2) 5 + d - 1
  let doe := yoe * 365 + Int.fdiv yoe 4 - Int.fdiv yoe 100 + doy
  era * 146097 + doe - 719468

/-- Wall-clock reading `y-m-d h:mi` in a zone `offsetSec` seconds east of
UTC, as an absolute instant in nanoseconds since the Unix epoch. -/
def wallToInstant (y m d h mi offsetSec : Int) : Int :=
  (daysFromCivil y m d * 86400 + h * 3600 + mi * 60 - offsetSec) * 1000000000

/-- The wall-clock fields of a string in the exact layout
`2006-01-02T15:04` (`YYYY-MM-DDTHH:MM`), with calendar validation, as in
`time.ParseInLocation` with that layout. -/
def goParseMinuteLayout (cs : List Char) : Option (Int × Int × Int × Int × Int) :=
  match cs with
  | [y1, y2, y3, y4, s1, m1, m2, s2, d1, d2, s3, h1, h2, s4, i1, i2] =>
    if [y1, y2, y3, y4, m1, m2, d1, d2, h1, h2, i1, i2].all Char.isDigit ∧
        s1 = '-' ∧ s2 = '-' ∧ s3 = 'T' ∧ s4 = ':' then
      let y : Int := digitsVal [y1, y2, y3, y4]
      let mo : Int := digitsVal [m1, m2]
      let d : Int := digitsVal [d1, d2]
      let h : Int := digitsVal [h1, h2]
      let mi : Int := digitsVal [i1, i2]
      if 1 ≤ mo ∧ mo ≤ 12 ∧ 1 ≤ d ∧ d ≤ daysInMonth y mo ∧ h ≤ 23 ∧ mi ≤ 59 then
        some (y, mo, d, h, mi)
      else none
    else none
  | _ => none

/-- `parsePurchaseAllowedAt` (handlers.go:894-909): buy-after timestamp
string plus optional timezone-offset-minutes string to an instant.
`localOffsetSec` models the server's `time.Local` zone offset. -/
def parsePurchaseAllowedAt (raw timezoneOffsetMinutesRaw : String)
    (localOffsetSec : Int) : Except String Int :=
  let locment : Except String Int :=
    if ¬ timezoneOffsetMinutesRaw = "" then
      match goAtoi timezoneOffsetMinutesRaw with
      | .error _ => .error "Please enter a valid buy-after date and time."
      | .ok offsetMinutes => .ok (-offsetMinutes * 60)
    else .ok localOffsetSec
  match locment with
  | .error e => .error e
  | .ok offsetSec =>
    match goParseMinuteLayout (goTrimSpace raw).toList with
    | none => .error "Please enter a valid buy-after date and time."
    | some (y, mo, d, h, mi) => .ok (wallToInstant y mo d h mi offsetSec)

/-- `resolvePurchaseAllowedAt` (handlers.go:911-924): wait specification
plus reference `now` to the absolute eligibility instant. -/
def resolvePurchaseAllowedAt (waitPreset waitCustomHours purchaseAllowedRaw
    timezoneOffsetMinutesRaw : String) (localOffsetSec : Int) (now : Int) :
    Except String Int :=
  if normalizeItemWaitPreset waitPreset = "date" then
    if goTrimSpace purchaseAllowedRaw = "" then
      .error "Please enter a buy-after date and time."
    else parsePurchaseAllowedAt purchaseAllowedRaw (goTrimSpace timezoneOffsetMinutesRaw)
      localOffsetSec
  else
    match parseWaitDuration waitPreset waitCustomHours with
    | .error e => .error e
    | .ok d => .ok (now + d)

/-- `parsePrice` (handlers.go:1373-1380): `(0, false)` when the string
does not parse or the parsed value satisfies `parsed <= 0`, otherwise
the parsed value and `true`. -/
def parsePrice (raw : String) : GoFloat × Bool :=
  match goParseFloat (goTrimSpace raw) with
  | .error _ => (.finite 0, false)
  | .ok parsed => if parsed.le0 then (.finite 0, false) else (parsed, true)

/-- The `Item` record (handlers.go:23-38).  Field names as in the source;
times are instants in nanoseconds, the price value a `GoFloat`. -/
structure Item where
  ID : Int
  Title : String
  Price : String
  PriceValue : GoFloat
  HasPriceValue : Bool
  Link : String
  Note : String
  Tags : String
  Status : String
  WaitPreset : String
  WaitCustomHours : String
  PurchaseAllowedAt : Int
  CreatedAt : Int
  NtfyAttempted : Bool
deriving DecidableEq

/-- The notification configuration of the `App` (fields `ntfyURL` and
`ntfyTopic`). -/
structure NtfyConfig where
  ntfyURL : String
  ntfyTopic : String
deriving DecidableEq

/-- Observable store/network effects of the promotion sweep:
`statusWrite` is `updatePromotedItemLocked`, `flagWrite` is the durable
`markNtfyAttemptedLocked`, `networkAttempt` is the outbound ntfy HTTP
request (its response does not feed back into item state). -/
inductive NtfyEvent where
  | statusWrite (id : Int)
  | flagWrite (id : Int)
  | networkAttempt (id : Int)
deriving DecidableEq

/-- The flag-setting loop of `sendNtfyNotificationLocked`
(handlers.go:1402-1410): set `NtfyAttempted` on the first item with the
given ID. -/
def markNtfyFirst : List Item → Int → List Item
  | [], _ => []
  | it :: rest, id =>
    if it.ID = id then { it with NtfyAttempted := true } :: rest
    else it :: markNtfyFirst rest id

/-- Whether some item of the list has the given ID. -/
def hasItemWithID (items : List Item) (id : Int) : Bool :=
  items.any (fun it => it.ID = id)

/-- `sendNtfyNotificationLocked` (handlers.go:1397-1437): no-op when the
passed item copy already has the notification-attempted flag; otherwise
set the flag on the in-memory list (with its durable write), then skip
the network call when endpoint or topic is blank, else make exactly one
attempt.  Returns the updated list and the emitted effects in order. -/
def sendNtfyNotificationLocked (cfg : NtfyConfig) (items : List Item) (item : Item) :
    List Item × List NtfyEvent :=
  if item.NtfyAttempted then (items, [])
  else
    let items' := markNtfyFirst items item.ID
    let evs := if hasItemWithID items item.ID then [NtfyEvent.flagWrite item.ID] else []
    if goTrimSpace cfg.ntfyURL = "" ∨ goTrimSpace cfg.ntfyTopic = "" then (items', evs)
    else (items', evs ++ [NtfyEvent.networkAttempt item.ID])

/-- The body of `promoteReadyItemsLocked`'s loop (handlers.go:1382-1395)
from index `i` on: a `Waiting` item whose eligibility instant is not
after `now` is set to `Ready to buy` at its index, its store write
issued, and `sendNtfyNotificationLocked` called with the updated copy.
`fuel` is the list length captured when the range loop starts (the loop
never changes the length). -/
def promoteAux (cfg : NtfyConfig) (now : Int) :
    Nat → Nat → List Item → List NtfyEvent → List Item × List NtfyEvent
  | 0, _, items, evs => (items, evs)
  | fuel + 1, i, items, evs =>
    match items[i]? with
    | none => (items, evs)
    | some it =>
      if it.Status = "Waiting" ∧ ¬ now < it.PurchaseAllowedAt then
        let promoted := { it with Status := "Ready to buy" }
        let items1 := items.set i promoted
        let se := sendNtfyNotificationLocked cfg items1 promoted
        promoteAux cfg now fuel (i + 1) se.1 (evs ++ NtfyEvent.statusWrite it.ID :: se.2)
      else promoteAux cfg now fuel (i + 1) items evs

/-- `promoteReadyItemsLocked` (handlers.go:1382-1395). -/
def promoteReadyItemsLocked (cfg : NtfyConfig) (now : Int) (items : List Item) :
    List Item × List NtfyEvent :=
  promoteAux cfg now items.length 0 items []

/-- Outcome of a mutating handler, paired with the final in-memory item
list by each operation model. -/
inductive HandlerResult where
  | seeOther
  | badRequest (msg : String)
  | conflict (msg : String)
  | notFound
deriving DecidableEq

/-- Outcome of the first-matching-ID loop inside a mutating handler. -/
inductive LoopResult where
  | ok (items : List Item)
  | conflict
  | notFound
deriving DecidableEq

/-- The loop of `updateItemStatus` (handlers.go:769-787): on the first
item with the ID, conflict unless its status is exactly `Ready to buy`,
else set the new status. -/
def updateItemStatusLoop (id : Int) (newStatus : String) : List Item → LoopResult
  | [] => .notFound
  | it :: rest =>
    if it.ID = id then
      if ¬ it.Status = "Ready to buy" then .conflict
      else .ok ({ it with Status := newStatus } :: rest)
    else
      match updateItemStatusLoop id newStatus rest with
      | .ok rest' => .ok (it :: rest')
      | r => r

/-- `updateItemStatus` (handlers.go:741-790), from the point where the
form's item ID has been parsed: validate the ID and the requested status
(`Bought`/`Skipped` only), then under the lock run the promotion sweep
and apply the first-match loop. -/
def updateItemStatus (cfg : NtfyConfig) (now : Int) (items : List Item)
    (id : Int) (newStatus : String) : HandlerResult × List Item :=
  if id ≤ 0 then (.badRequest "invalid item id", items)
  else if ¬ (newStatus = "Bought" ∨ newStatus = "Skipped") then
    (.badRequest "invalid status", items)
  else
    let items1 := (promoteReadyItemsLocked cfg now items).1
    match updateItemStatusLoop id newStatus items1 with
    | .ok items2 => (.seeOther, items2)
    | .conflict => (.conflict "status transition not allowed", items1)
    | .notFound => (.notFound, items1)

/-- The loop of `snoozeItem` (handlers.go:862-889): on the first item
with the ID, conflict unless `Ready to buy`; else push the eligibility
instant to `max(current, now) + duration`, revert to `Waiting` and clear
the notification-attempted flag. -/
def snoozeItemLoop (now duration id : Int) : List Item → LoopResult
  | [] => .notFound
  | it :: rest =>
    if it.ID = id then
      if ¬ it.Status = "Ready to buy" then .conflict
      else
        let base := if it.PurchaseAllowedAt < now then now else it.PurchaseAllowedAt
        .ok ({ it with
                PurchaseAllowedAt := base + duration
                Status := "Waiting"
                NtfyAttempted := false } :: rest)
    else
      match snoozeItemLoop now duration id rest with
      | .ok rest' => .ok (it :: rest')
      | r => r

/-- `snoozeItem` (handlers.go:831-892), from the point where the form's
item ID has been parsed: validate the ID and the snooze preset (only
`"24h"`, giving a 24-hour increment), then under the lock run the
promotion sweep and apply the first-match loop. -/
def snoozeItem (cfg : NtfyConfig) (now : Int) (items : List Item)
    (id : Int) (snoozePresetRaw : String) : HandlerResult × List Item :=
  if id ≤ 0 then (.badRequest "invalid item id", items)
  else if ¬ goTrimSpace snoozePresetRaw = "24h" then
    (.badRequest "invalid snooze preset", items)
  else
    let duration := 24 * timeHourNS
    let items1 := (promoteReadyItemsLocked cfg now items).1
    match snoozeItemLoop now duration id items1 with
    | .ok items2 => (.seeOther, items2)
    | .conflict => (.conflict "snooze is only allowed for ready items", items1)
    | .notFound => (.notFound, items1)

/-- The removal loop of `deleteItem` (handlers.go:812-826): remove the
first item with the ID. -/
def deleteItemLoop (id : Int) : List Item → Option (List Item)
  | [] => none
  | it :: rest =>
    if it.ID = id then some rest
    else (deleteItemLoop id rest).map (it :: ·)

/-- `deleteItem` (handlers.go:792-829), from the point where the form's
item ID has been parsed.  The handler does not run the promotion sweep. -/
def deleteItem (items : List Item) (id : Int) : HandlerResult × List Item :=
  if id ≤ 0 then (.badRequest "invalid item id", items)
  else
    match deleteItemLoop id items with
    | some items' => (.seeOther, items')
    | none => (.notFound, items)

/-- The item-form values read by `createItem`/`updateItem` (each handler
trims them exactly where the source does).  `tags` stands for the
already-joined result of `parseTagsFromForm`, which no claim concerns. -/
structure ItemForm where
  title : String
  price : String
  link : String
  note : String
  tags : String
  waitPreset : String
  waitCustomHours : String
  purchaseAllowedAt : String
  timezoneOffsetMinutes : String
deriving DecidableEq

/-- The profile's default wait settings used by `createItem` when the
form omits a preset (`a.defaultWaitPreset`, `a.defaultWaitCustomHours`). -/
structure ProfileDefaults where
  defaultWaitPreset : String
  defaultWaitCustomHours : String
deriving DecidableEq

/-- The new item record built by `createItem` (handlers.go:355-409) on
the memory-only store: ID `nextID`, trimmed fields, parsed price, status
derived from the eligibility instant, normalized preset, creation time
`now`, flag cleared.  An empty submitted preset falls back to the
profile default (copying the default custom hours when that default is
`custom`). -/
def createdItemOf (defaults : ProfileDefaults) (form : ItemForm)
    (now nextID paa : Int) : Item :=
  let wp0 := goTrimSpace form.waitPreset
  let wp := if wp0 = "" then defaultWaitPreset defaults.defaultWaitPreset else wp0
  let wch :=
    if wp0 = "" ∧ defaultWaitPreset defaults.defaultWaitPreset = "custom" then
      defaults.defaultWaitCustomHours
    else goTrimSpace form.waitCustomHours
  let price := goTrimSpace form.price
  let pp := parsePrice price
  { ID := nextID
    Title := goTrimSpace form.title
    Price := price
    PriceValue := pp.1
    HasPriceValue := pp.2
    Link := goTrimSpace form.link
    Note := goTrimSpace form.note
    Tags := form.tags
    Status := activeStatusForPurchaseAllowedAt paa now
    WaitPreset := normalizeItemWaitPreset wp
    WaitCustomHours := wch
    PurchaseAllowedAt := paa
    CreatedAt := now
    NtfyAttempted := false }

/-- `createItem` (handlers.go:349-422), from the point where the form has
been read, on the memory-only store: a blank title or an invalid wait
specification is a validation error and mutates nothing; otherwise the
new item is prepended.  The handler does not run the promotion sweep. -/
def createItem (defaults : ProfileDefaults) (form : ItemForm) (now localOffsetSec : Int)
    (nextID : Int) (items : List Item) : HandlerResult × List Item :=
  let wp0 := goTrimSpace form.waitPreset
  let wp := if wp0 = "" then defaultWaitPreset defaults.defaultWaitPreset else wp0
  let wch :=
    if wp0 = "" ∧ defaultWaitPreset defaults.defaultWaitPreset = "custom" then
      defaults.defaultWaitCustomHours
    else goTrimSpace form.waitCustomHours
  if goTrimSpace form.title = "" then (.badRequest "Please enter a title.", items)
  else
    match resolvePurchaseAllowedAt wp wch (goTrimSpace form.purchaseAllowedAt)
        (goTrimSpace form.timezoneOffsetMinutes) localOffsetSec now with
    | .error e => (.badRequest e, items)
    | .ok paa => (.seeOther, createdItemOf defaults form now nextID paa :: items)

/-- The replacement record computed by `updateItem`'s loop body
(handlers.go:519-531) for the matched item: keep the existing creation
time and notification flag, set the newly resolved eligibility instant,
preserve a prior `Bought` status unconditionally, and otherwise
re-derive the status from the eligibility instant (resetting the flag
when it becomes `Waiting`). -/
def updatedItemOf (incoming : Item) (paa now : Int) (existing : Item) : Item :=
  let base := { incoming with
    CreatedAt := existing.CreatedAt
    NtfyAttempted := existing.NtfyAttempted
    PurchaseAllowedAt := paa }
  if existing.Status = "Bought" then { base with Status := "Bought" }
  else
    let st := activeStatusForPurchaseAllowedAt paa now
    if st = "Waiting" then { base with Status := st, NtfyAttempted := false }
    else { base with Status := st }

/-- The loop of `updateItem` (handlers.go:514-545): replace the first
item with the ID by `updatedItemOf`. -/
def updateItemLoop (id : Int) (incoming : Item) (paa now : Int) :
    List Item → Option (List Item)
  | [] => none
  | existing :: rest =>
    if existing.ID = id then some (updatedItemOf incoming paa now existing :: rest)
    else (updateItemLoop id incoming paa now rest).map (existing :: ·)

/-- The incoming (form-derived) item record built by `updateItem`
(handlers.go:466-480): trimmed fields, parsed price, normalized preset,
and zero values for the fields the loop body overwrites. -/
def incomingItemOf (form : ItemForm) (id : Int) : Item :=
  let price := goTrimSpace form.price
  let pp := parsePrice price
  { ID := id
    Title := goTrimSpace form.title
    Price := price
    PriceValue := pp.1
    HasPriceValue := pp.2
    Link := goTrimSpace form.link
    Note := goTrimSpace form.note
    Tags := form.tags
    Status := ""
    WaitPreset := normalizeItemWaitPreset (goTrimSpace form.waitPreset)
    WaitCustomHours := goTrimSpace form.waitCustomHours
    PurchaseAllowedAt := 0
    CreatedAt := 0
    NtfyAttempted := false }

/-- `updateItem` (handlers.go:454-545), from the point where the form and
the query-string ID have been read, on the memory-only store.  The
handler does not run the promotion sweep. -/
def updateItem (form : ItemForm) (id : Int) (now localOffsetSec : Int)
    (items : List Item) : HandlerResult × List Item :=
  if id ≤ 0 then (.badRequest "invalid item id", items)
  else if goTrimSpace form.title = "" then (.badRequest "Please enter a title.", items)
  else
    match resolvePurchaseAllowedAt (goTrimSpace form.waitPreset)
        (goTrimSpace form.waitCustomHours) (goTrimSpace form.purchaseAllowedAt)
        (goTrimSpace form.timezoneOffsetMinutes) localOffsetSec now with
    | .error e => (.badRequest e, items)
    | .ok paa =>
      match updateItemLoop id (incomingItemOf form id) paa now items with
      | some items' => (.seeOther, items')
      | none => (.notFound, items)

/-- A sequence of promotion sweeps (page loads, mutation preambles and
background scheduler ticks all call `promoteReadyItemsLocked` under the
lock): the final list and the concatenated effect trace. -/
def runSweeps (cfg : NtfyConfig) : List Int → List Item → List Item × List NtfyEvent
  | [], items => (items, [])
  | t :: ts, items =>
    let s1 := promoteReadyItemsLocked cfg t items
    let s2 := runSweeps cfg ts s1.1
    (s2.1, s1.2 ++ s2.2)

/-- Pointwise effect of the promotion sweep on one item (the list-level
sweep coincides with this map when item IDs are unique): a `Waiting`
item whose eligibility instant is at-or-before `now` becomes
`Ready to buy` with the notification-attempted flag set; every other
item is untouched. -/
def promoteItemPure (now : Int) (it : Item) : Item :=
  if it.Status = "Waiting" ∧ ¬ now < it.PurchaseAllowedAt then
    { it with Status := "Ready to buy", NtfyAttempted := true }
  else it

/-- Whether the notification endpoint/topic pair is configured
(both non-blank), as tested in `sendNtfyNotificationLocked`. -/
def cfgConfigured (cfg : NtfyConfig) : Bool :=
  ¬ (goTrimSpace cfg.ntfyURL = "" ∨ goTrimSpace cfg.ntfyTopic = "")

/-- Effects emitted for one item during a sweep (valid when item IDs are
unique): a promoted item always gets its status store-write; if its flag
was clear, the durable flag write follows, and then — only with a
configured endpoint — a single network attempt. -/
def promoteEventsOf (cfg : NtfyConfig) (now : Int) (it : Item) : List NtfyEvent :=
  if it.Status = "Waiting" ∧ ¬ now < it.PurchaseAllowedAt then
    NtfyEvent.statusWrite it.ID ::
      (if it.NtfyAttempted then []
       else NtfyEvent.flagWrite it.ID ::
        (if cfgConfigured cfg then [NtfyEvent.networkAttempt it.ID] else []))
  else []

theorem markNtfyFirst_length (id : Int) :
    ∀ l : List Item, (markNtfyFirst l id).length = l.length := by
  intro l
  induction l with
  | nil => rfl
  | cons a t ih =>
    by_cases h : a.ID = id <;> simp [markNtfyFirst, h, ih]

theorem sendNtfy_length (cfg : NtfyConfig) (items : List Item) (item : Item) :
    ((sendNtfyNotificationLocked cfg items item).1).length = items.length := by
  unfold sendNtfyNotificationLocked
  by_cases h1 : item.NtfyAttempted <;>
    by_cases h2 : goTrimSpace cfg.ntfyURL = "" ∨ goTrimSpace cfg.ntfyTopic = "" <;>
      simp [h1, h2, markNtfyFirst_length]

theorem list_set_self {α : Type _} {l : List α} {i : Nat} {x : α}
    (h : l[i]? = some x) : l.set i x = l := by
  induction l generalizing i with
  | nil => simp at h
  | cons a t ih =>
    cases i with
    | zero => simp_all
    | succ n =>
      simp only [List.getElem?_cons_succ] at h
      simp [ih h]

theorem item_set_flag_self {it : Item} (h : it.NtfyAttempted = true) :
    ({ it with NtfyAttempted := true } : Item) = it := by
  cases it
  simp_all

theorem markNtfyFirst_eq_set :
    ∀ (l : List Item) (j : Nat) (x : Item), l[j]? = some x →
      (∀ k, k < j → ∀ y, l[k]? = some y → y.ID ≠ x.ID) →
      markNtfyFirst l x.ID = l.set j { x with NtfyAttempted := true } := by
  intro l
  induction l with
  | nil => intro j x hx; simp at hx
  | cons a t ih =>
    intro j x hx hfirst
    cases j with
    | zero =>
      simp only [List.getElem?_cons_zero, Option.some.injEq] at hx
      subst hx
      simp [markNtfyFirst]
    | succ n =>
      simp only [List.getElem?_cons_succ] at hx
      have ha : a.ID ≠ x.ID := by
        have := hfirst 0 (Nat.succ_pos n) a (by simp)
        exact this
      simp only [markNtfyFirst, if_neg ha, List.set]
      have : ∀ k, k < n → ∀ y, t[k]? = some y → y.ID ≠ x.ID := by
        intro k hk y hy
        exact hfirst (k + 1) (Nat.succ_lt_succ hk) y (by simpa using hy)
      rw [ih n x hx this]

theorem hasItemWithID_of_getElem {items : List Item} {j : Nat} {x : Item}
    (h : items[j]? = some x) : hasItemWithID items x.ID = true := by
  have hmem : x ∈ items := List.getElem?_mem h
  simp only [hasItemWithID, List.any_eq_true]
  exact ⟨x, hmem, by simp⟩

theorem take_set_succ {α : Type _} {l : List α} {i : Nat} {v : α} (hi : i < l.length) :
    (l.set i v).take (i + 1) = l.take i ++ [v] := by
  rw [List.set_eq_take_cons_drop v hi, List.take_append_eq_append_take]
  have h1 : (l.take i).length = i := by rw [List.length_take]; omega
  rw [List.take_of_length_le (by omega : (l.take i).length ≤ i + 1), h1]
  have : i + 1 - i = 1 := by omega
  rw [this]
  simp

theorem nodup_map_id_set {items : List Item} {i : Nat} {it v : Item}
    (h : items[i]? = some it) (hid : v.ID = it.ID)
    (hnd : (items.map Item.ID).Nodup) : ((items.set i v).map Item.ID).Nodup := by
  rw [List.map_set, hid]
  rw [list_set_self (by rw [List.getElem?_map, h]; rfl)]
  exact hnd

theorem promoteAux_spec (cfg : NtfyConfig) (now : Int) :
    ∀ (fuel i : Nat) (items : List Item) (evs : List NtfyEvent),
      items.length ≤ i + fuel → (items.map Item.ID).Nodup →
      promoteAux cfg now fuel i items evs =
        (items.take i ++ (items.drop i).map (promoteItemPure now),
         evs ++ ((items.drop i).map (promoteEventsOf cfg now)).flatten) := by
  intro fuel
  induction fuel with
  | zero =>
    intro i items evs hlen hnd
    have hle : items.length ≤ i := by omega
    simp [promoteAux, List.take_of_length_le hle, List.drop_eq_nil_of_le hle]
  | succ fuel ih =>
    intro i items evs hlen hnd
    cases h : items[i]? with
    | none =>
      have hle : items.length ≤ i := by
        by_contra hlt
        push_neg at hlt
        rw [List.getElem?_eq_getElem hlt] at h
        simp at h
      simp [promoteAux, h, List.take_of_length_le hle, List.drop_eq_nil_of_le hle]
    | some it =>
      have hi : i < items.length := by
        by_contra hge
        push_neg at hge
        rw [List.getElem?_eq_none hge] at h
        simp at h
      have hdrop : items.drop i = it :: items.drop (i + 1) := by
        rw [List.drop_eq_getElem_cons hi]
        have := List.getElem?_eq_getElem hi
        rw [h] at this
        simp at this
        rw [this]
      by_cases hc : it.Status = "Waiting" ∧ ¬ now < it.PurchaseAllowedAt
      · -- the item is promoted at index i
        have hpure : promoteItemPure now it =
            { it with Status := "Ready to buy", NtfyAttempted := true } := by
          simp [promoteItemPure, hc]
        have hlen1 : (items.set i { it with Status := "Ready to buy" }).length ≤
            (i + 1) + fuel := by
          rw [List.length_set]; omega
        have hnd1 : ((items.set i { it with Status := "Ready to buy" }).map Item.ID).Nodup :=
          nodup_map_id_set h rfl hnd
        by_cases hf : it.NtfyAttempted
        · -- flag already set: sendNtfy is a no-op
          have hitem : ({ it with Status := "Ready to buy", NtfyAttempted := true } : Item) =
              { it with Status := "Ready to buy" } := by
            cases it; simp_all
          have hev : promoteEventsOf cfg now it = [NtfyEvent.statusWrite it.ID] := by
            simp [promoteEventsOf, hc, hf]
          simp only [promoteAux, h]
          rw [if_pos hc]
          have hsend : sendNtfyNotificationLocked cfg
              (items.set i { it with Status := "Ready to buy" })
              { it with Status := "Ready to buy" } =
              (items.set i { it with Status := "Ready to buy" }, []) := by
            unfold sendNtfyNotificationLocked
            rw [if_pos hf]
          rw [hsend]
          rw [ih (i + 1) _ _ hlen1 hnd1]
          rw [take_set_succ hi]
          rw [List.drop_set]
          rw [if_pos (by omega : i < i + 1)]
          rw [hdrop]
          simp [hpure, hitem, hev]
        · -- flag not yet set: sendNtfy sets it and (maybe) attempts delivery
          have hget1 : (items.set i { it with Status := "Ready to buy" })[i]? =
              some { it with Status := "Ready to buy" } :=
            List.getElem?_set_self hi
          have hmark : markNtfyFirst (items.set i { it with Status := "Ready to buy" })
              it.ID = items.set i { it with Status := "Ready to buy", NtfyAttempted := true } := by
            have hfirst : ∀ k, k < i → ∀ y,
                (items.set i { it with Status := "Ready to buy" })[k]? = some y →
                y.ID ≠ ({ it with Status := "Ready to buy" } : Item).ID := by
              intro k hk y hy
              rw [List.getElem?_set_ne (by omega : i ≠ k)] at hy
              intro heq
              have hky : (items.map Item.ID)[k]? = some it.ID := by
                rw [List.getElem?_map, hy]
                simpa using heq
              have hii : (items.map Item.ID)[i]? = some it.ID := by
                rw [List.getElem?_map, h]
                rfl
              have : k = i := by
                refine List.getElem?_inj ?_ hnd ?_
                · rw [List.length_map]; omega
                · rw [hky, hii]
              omega
            have := markNtfyFirst_eq_set _ i { it with Status := "Ready to buy" } hget1 hfirst
            rw [this, List.set_set]
          have hhas : hasItemWithID (items.set i { it with Status := "Ready to buy" })
              ({ it with Status := "Ready to buy" } : Item).ID = true :=
            hasItemWithID_of_getElem hget1
          have hlen2 : (items.set i { it with Status := "Ready to buy", NtfyAttempted := true }).length ≤
              (i + 1) + fuel := by
            rw [List.length_set]; omega
          have hnd2 : ((items.set i { it with Status := "Ready to buy", NtfyAttempted := true }).map Item.ID).Nodup :=
            nodup_map_id_set h rfl hnd
          simp only [promoteAux, h]
          rw [if_pos hc]
          by_cases hcfg : goTrimSpace cfg.ntfyURL = "" ∨ goTrimSpace cfg.ntfyTopic = ""
          · have hsend : sendNtfyNotificationLocked cfg
                (items.set i { it with Status := "Ready to buy" })
                { it with Status := "Ready to buy" } =
                (items.set i { it with Status := "Ready to buy", NtfyAttempted := true },
                 [NtfyEvent.flagWrite it.ID]) := by
              unfold sendNtfyNotificationLocked
              rw [if_neg (by simpa using hf)]
              rw [hmark]
              rw [if_pos hcfg]
              simp [hhas]
            have hev : promoteEventsOf cfg now it =
                [NtfyEvent.statusWrite it.ID, NtfyEvent.flagWrite it.ID] := by
              have : cfgConfigured cfg = false := by
                simp [cfgConfigured, hcfg]
              simp [promoteEventsOf, hc, hf, this]
            rw [hsend]
            rw [ih (i + 1) _ _ hlen2 hnd2]
            rw [take_set_succ hi]
            rw [List.drop_set]
            rw [if_pos (by omega : i < i + 1)]
            rw [hdrop]
            simp [hpure, hev]
          · have hsend : sendNtfyNotificationLocked cfg
                (items.set i { it with Status := "Ready to buy" })
                { it with Status := "Ready to buy" } =
                (items.set i { it with Status := "Ready to buy", NtfyAttempted := true },
                 [NtfyEvent.flagWrite it.ID, NtfyEvent.networkAttempt it.ID]) := by
              unfold sendNtfyNotificationLocked
              rw [if_neg (by simpa using hf)]
              rw [hmark]
              rw [if_neg hcfg]
              simp [hhas]
            have hev : promoteEventsOf cfg now it =
                [NtfyEvent.statusWrite it.ID, NtfyEvent.flagWrite it.ID,
                 NtfyEvent.networkAttempt it.ID] := by
              have : cfgConfigured cfg = true := by
                simp [cfgConfigured] at hcfg ⊢
                exact hcfg
              simp [promoteEventsOf, hc, hf, this]
            rw [hsend]
            rw [ih (i + 1) _ _ hlen2 hnd2]
            rw [take_set_succ hi]
            rw [List.drop_set]
            rw [if_pos (by omega : i < i + 1)]
            rw [hdrop]
            simp [hpure, hev]
      · -- no promotion at index i
        have hpure : promoteItemPure now it = it := by
          simp only [promoteItemPure, if_neg hc]
        have hev : promoteEventsOf cfg now it = [] := by
          simp only [promoteEventsOf, if_neg hc]
        simp only [promoteAux, h]
        rw [if_neg hc]
        rw [ih (i + 1) _ _ (by omega) hnd]
        rw [List.take_succ, h, hdrop]
        simp [hpure, hev]

theorem promoteReadyItemsLocked_spec (cfg : NtfyConfig) (now : Int) (items : List Item)
    (hnd : (items.map Item.ID).Nodup) :
    promoteReadyItemsLocked cfg now items =
      (items.map (promoteItemPure now),
       (items.map (promoteEventsOf cfg now)).flatten) := by
  unfold promoteReadyItemsLocked
  rw [promoteAux_spec cfg now items.length 0 items [] (by omega) hnd]
  simp

/-- First item of the list with the given ID — the item each handler's
`for … range` loop acts on. -/
def findById (items : List Item) (id : Int) : Option Item :=
  items.find? (fun it => it.ID = id)

theorem promoteItemPure_ID (now : Int) (it : Item) :
    (promoteItemPure now it).ID = it.ID := by
  unfold promoteItemPure
  split <;> rfl

theorem promoteItemPure_PurchaseAllowedAt (now : Int) (it : Item) :
    (promoteItemPure now it).PurchaseAllowedAt = it.PurchaseAllowedAt := by
  unfold promoteItemPure
  split <;> rfl

theorem findById_map_promote (now : Int) (items : List Item) (id : Int) :
    findById (items.map (promoteItemPure now)) id =
      (findById items id).map (promoteItemPure now) := by
  unfold findById
  rw [List.find?_map]
  have hp : ((fun it => decide (it.ID = id)) ∘ promoteItemPure now) =
      (fun it => decide (it.ID = id)) := by
    funext it
    simp [Function.comp, promoteItemPure_ID]
  rw [hp]

theorem updatedItemOf_ID (incoming : Item) (paa now : Int) (existing : Item) :
    (updatedItemOf incoming paa now existing).ID = incoming.ID := by
  simp only [updatedItemOf]
  split
  · rfl
  · split <;> rfl

theorem updateItemStatusLoop_conflict (id : Int) (ns : String) :
    ∀ (items : List Item) (existing : Item), findById items id = some existing →
      ¬ existing.Status = "Ready to buy" →
      updateItemStatusLoop id ns items = .conflict := by
  intro items
  induction items with
  | nil => intro existing h; simp [findById] at h
  | cons a rest ih =>
    intro existing h hst
    by_cases pa : a.ID = id
    · simp only [findById, List.find?_cons, pa, decide_True, Option.some.injEq] at h
      subst h
      simp [updateItemStatusLoop, pa, hst]
    · simp only [findById, List.find?_cons, pa, decide_False] at h
      simp only [updateItemStatusLoop, if_neg pa]
      rw [ih existing h hst]

theorem updateItemStatusLoop_ok (id : Int) (ns : String) :
    ∀ (items : List Item) (existing : Item), findById items id = some existing →
      existing.Status = "Ready to buy" →
      ∃ items', updateItemStatusLoop id ns items = .ok items' ∧
        findById items' id = some { existing with Status := ns } ∧
        ∀ y ∈ items', y ∈ items ∨ y = { existing with Status := ns } := by
  intro items
  induction items with
  | nil => intro existing h; simp [findById] at h
  | cons a rest ih =>
    intro existing h hst
    by_cases pa : a.ID = id
    · simp only [findById, List.find?_cons, pa, decide_True, Option.some.injEq] at h
      subst h
      refine ⟨{ a with Status := ns } :: rest, ?_, ?_, ?_⟩
      · simp [updateItemStatusLoop, pa, hst]
      · simp [findById, List.find?_cons, pa]
      · intro y hy
        rcases List.mem_cons.mp hy with h1 | h1
        · right; exact h1
        · left; exact List.mem_cons_of_mem _ h1
    · simp only [findById, List.find?_cons, pa, decide_False] at h
      obtain ⟨rest', h1, h2, h3⟩ := ih existing h hst
      refine ⟨a :: rest', ?_, ?_, ?_⟩
      · simp [updateItemStatusLoop, if_neg pa, h1]
      · simp [findById, List.find?_cons, pa] at h2 ⊢
        exact h2
      · intro y hy
        rcases List.mem_cons.mp hy with h4 | h4
        · left; simp [h4]
        · rcases h3 y h4 with h5 | h5
          · left; exact List.mem_cons_of_mem _ h5
          · right; exact h5

theorem updateItemStatusLoop_notFound (id : Int) (ns : String) :
    ∀ items : List Item, findById items id = none →
      updateItemStatusLoop id ns items = .notFound := by
  intro items
  induction items with
  | nil => intro _; rfl
  | cons a rest ih =>
    intro h
    by_cases pa : a.ID = id
    · simp [findById, List.find?_cons, pa] at h
    · simp only [findById, List.find?_cons, pa, decide_False] at h
      simp only [updateItemStatusLoop, if_neg pa]
      rw [ih h]

/-- The record a successful snooze stores for the matched item. -/
def snoozedItemOf (now duration : Int) (it : Item) : Item :=
  let base := if it.PurchaseAllowedAt < now then now else it.PurchaseAllowedAt
  { it with
    PurchaseAllowedAt := base + duration
    Status := "Waiting"
    NtfyAttempted := false }

theorem snoozeItemLoop_conflict (now duration id : Int) :
    ∀ (items : List Item) (existing : Item), findById items id = some existing →
      ¬ existing.Status = "Ready to buy" →
      snoozeItemLoop now duration id items = .conflict := by
  intro items
  induction items with
  | nil => intro existing h; simp [findById] at h
  | cons a rest ih =>
    intro existing h hst
    by_cases pa : a.ID = id
    · simp only [findById, List.find?_cons, pa, decide_True, Option.some.injEq] at h
      subst h
      simp [snoozeItemLoop, pa, hst]
    · simp only [findById, List.find?_cons, pa, decide_False] at h
      simp only [snoozeItemLoop, if_neg pa]
      rw [ih existing h hst]

theorem snoozeItemLoop_ok (now duration id : Int) :
    ∀ (items : List Item) (existing : Item), findById items id = some existing →
      existing.Status = "Ready to buy" →
      ∃ items', snoozeItemLoop now duration id items = .ok items' ∧
        findById items' id = some (snoozedItemOf now duration existing) ∧
        ∀ y ∈ items', y ∈ items ∨ y = snoozedItemOf now duration existing := by
  intro items
  induction items with
  | nil => intro existing h; simp [findById] at h
  | cons a rest ih =>
    intro existing h hst
    by_cases pa : a.ID = id
    · simp only [findById, List.find?_cons, pa, decide_True, Option.some.injEq] at h
      subst h
      refine ⟨snoozedItemOf now duration a :: rest, ?_, ?_, ?_⟩
      · simp [snoozeItemLoop, pa, hst, snoozedItemOf]
      · simp [findById, List.find?_cons, snoozedItemOf, pa]
      · intro y hy
        rcases List.mem_cons.mp hy with h1 | h1
        · right; exact h1
        · left; exact List.mem_cons_of_mem _ h1
    · simp only [findById, List.find?_cons, pa, decide_False] at h
      obtain ⟨rest', h1, h2, h3⟩ := ih existing h hst
      refine ⟨a :: rest', ?_, ?_, ?_⟩
      · simp [snoozeItemLoop, if_neg pa, h1]
      · simp [findById, List.find?_cons, pa] at h2 ⊢
        exact h2
      · intro y hy
        rcases List.mem_cons.mp hy with h4 | h4
        · left; simp [h4]
        · rcases h3 y h4 with h5 | h5
          · left; exact List.mem_cons_of_mem _ h5
          · right; exact h5

theorem snoozeItemLoop_notFound (now duration id : Int) :
    ∀ items : List Item, findById items id = none →
      snoozeItemLoop now duration id items = .notFound := by
  intro items
  induction items with
  | nil => intro _; rfl
  | cons a rest ih =>
    intro h
    by_cases pa : a.ID = id
    · simp [findById, List.find?_cons, pa] at h
    · simp only [findById, List.find?_cons, pa, decide_False] at h
      simp only [snoozeItemLoop, if_neg pa]
      rw [ih h]

theorem updateItemLoop_ok (id : Int) (incoming : Item) (paa now : Int)
    (hinc : incoming.ID = id) :
    ∀ (items : List Item) (existing : Item), findById items id = some existing →
      ∃ items', updateItemLoop id incoming paa now items = some items' ∧
        findById items' id = some (updatedItemOf incoming paa now existing) := by
  intro items
  induction items with
  | nil => intro existing h; simp [findById] at h
  | cons a rest ih =>
    intro existing h
    by_cases pa : a.ID = id
    · simp only [findById, List.find?_cons, pa, decide_True, Option.some.injEq] at h
      subst h
      refine ⟨updatedItemOf incoming paa now a :: rest, ?_, ?_⟩
      · simp [updateItemLoop, pa]
      · simp [findById, List.find?_cons, updatedItemOf_ID, hinc]
    · simp only [findById, List.find?_cons, pa, decide_False] at h
      obtain ⟨rest', h1, h2⟩ := ih existing h
      refine ⟨a :: rest', ?_, ?_⟩
      · simp [updateItemLoop, if_neg pa, h1]
      · simp [findById, List.find?_cons, pa] at h2 ⊢
        exact h2

theorem updateItemLoop_none (id : Int) (incoming : Item) (paa now : Int) :
    ∀ items : List Item, findById items id = none →
      updateItemLoop id incoming paa now items = none := by
  intro items
  induction items with
  | nil => intro _; rfl
  | cons a rest ih =>
    intro h
    by_cases pa : a.ID = id
    · simp [findById, List.find?_cons, pa] at h
    · simp only [findById, List.find?_cons, pa, decide_False] at h
      simp only [updateItemLoop, if_neg pa]
      rw [ih h]
      rfl

theorem promoteItemPure_eq_self_of_ne_ready {now : Int} {it : Item}
    (h : ¬ (promoteItemPure now it).Status = "Ready to buy") :
    promoteItemPure now it = it := by
  by_cases hc : it.Status = "Waiting" ∧ ¬ now < it.PurchaseAllowedAt
  · exact absurd (by unfold promoteItemPure; rw [if_pos hc]) h
  · unfold promoteItemPure
    rw [if_neg hc]

theorem snoozedItemOf_eq (now d : Int) (it : Item) :
    snoozedItemOf now d it =
      { it with
        PurchaseAllowedAt := max it.PurchaseAllowedAt now + d
        Status := "Waiting"
        NtfyAttempted := false } := by
  have hb : (if it.PurchaseAllowedAt < now then now else it.PurchaseAllowedAt) =
      max it.PurchaseAllowedAt now := by omega
  simp [snoozedItemOf, hb]

/-- A sample item record used by concrete witness instances. -/
def sampleItem (id : Int) (status : String) (paa : Int) (flag : Bool) : Item :=
  { ID := id
    Title := "x"
    Price := ""
    PriceValue := .finite 0
    HasPriceValue := false
    Link := ""
    Note := ""
    Tags := ""
    Status := status
    WaitPreset := "24h"
    WaitCustomHours := ""
    PurchaseAllowedAt := paa
    CreatedAt := 0
    NtfyAttempted := flag }

/-- C4: for an existing item (IDs unique, a validated positive ID and a
requested status of `Bought` or `Skipped`), the status-set operation
succeeds if and only if the item's status after the operation's
preceding promotion sweep is exactly `Ready to buy`; on success the item
takes the requested terminal status, while from `Waiting` or a terminal
state the handler answers the conflict "status transition not allowed"
and the item — its status and all its other state — is exactly as it was
before the operation. -/
theorem C4_status_set (cfg : NtfyConfig) (now : Int) (items : List Item)
    (id : Int) (newStatus : String) (it0 : Item)
    (hnd : (items.map Item.ID).Nodup) (hid : 0 < id)
    (hns : newStatus = "Bought" ∨ newStatus = "Skipped")
    (hfind : findById items id = some it0) :
    (((updateItemStatus cfg now items id newStatus).1 = .seeOther) ↔
      (promoteItemPure now it0).Status = "Ready to buy") ∧
    ((promoteItemPure now it0).Status = "Ready to buy" →
      findById (updateItemStatus cfg now items id newStatus).2 id =
        some { promoteItemPure now it0 with Status := newStatus }) ∧
    (¬ (promoteItemPure now it0).Status = "Ready to buy" →
      (updateItemStatus cfg now items id newStatus).1 =
          .conflict "status transition not allowed" ∧
        findById (updateItemStatus cfg now items id newStatus).2 id = some it0) := by
  have hsweep : (promoteReadyItemsLocked cfg now items).1 =
      items.map (promoteItemPure now) := by
    rw [promoteReadyItemsLocked_spec cfg now items hnd]
  have hfind1 : findById (items.map (promoteItemPure now)) id =
      some (promoteItemPure now it0) := by
    rw [findById_map_promote, hfind]
    rfl
  have hvalid : ¬ ¬ (newStatus = "Bought" ∨ newStatus = "Skipped") :=
    not_not_intro hns
  by_cases hready : (promoteItemPure now it0).Status = "Ready to buy"
  · obtain ⟨items', h1, h2, _⟩ :=
      updateItemStatusLoop_ok id newStatus (items.map (promoteItemPure now))
        (promoteItemPure now it0) hfind1 hready
    have hop : updateItemStatus cfg now items id newStatus = (.seeOther, items') := by
      unfold updateItemStatus
      rw [if_neg (by omega), if_neg hvalid]
      simp only [hsweep, h1]
    refine ⟨?_, ?_, ?_⟩
    · rw [hop]
      simp [hready]
    · intro _
      rw [hop, h2]
    · intro hc
      exact absurd hready hc
  · have h1 := updateItemStatusLoop_conflict id newStatus
      (items.map (promoteItemPure now)) (promoteItemPure now it0) hfind1 hready
    have hop : updateItemStatus cfg now items id newStatus =
        (.conflict "status transition not allowed", items.map (promoteItemPure now)) := by
      unfold updateItemStatus
      rw [if_neg (by omega), if_neg hvalid]
      simp only [hsweep, h1]
    have hun : promoteItemPure now it0 = it0 := promoteItemPure_eq_self_of_ne_ready hready
    refine ⟨?_, ?_, ?_⟩
    · rw [hop]
      constructor
      · intro h; simp at h
      · intro h; exact absurd h hready
    · intro h; exact absurd h hready
    · intro _
      rw [hop]
      exact ⟨rfl, by rw [hfind1, hun]⟩

theorem C4_status_set_witness :
    (updateItemStatus ⟨"", ""⟩ 100 [sampleItem 1 "Ready to buy" 50 false] 1 "Bought").1 =
      .seeOther :=
  (C4_status_set ⟨"", ""⟩ 100 [sampleItem 1 "Ready to buy" 50 false] 1 "Bought"
      (sampleItem 1 "Ready to buy" 50 false) (by decide) (by decide) (Or.inl rfl)
      (by decide)).1.mpr (by decide)

/-- C5: for an existing item (IDs unique, validated positive ID, snooze
preset `"24h"`), when the item's status — read after the operation's
preceding promotion sweep, exactly as the status-set operation reads
it — is `Ready to buy`, snooze succeeds and stores the item with
eligibility `max(current eligibility, now) + 24h` (hence strictly more
than `now + 23h`), status `Waiting` and the notification-attempted flag
cleared; in any other status the handler answers the conflict
"snooze is only allowed for ready items" and the item is exactly as it
was before the operation. -/
theorem C5_snooze (cfg : NtfyConfig) (now : Int) (items : List Item)
    (id : Int) (presetRaw : String) (it0 : Item)
    (hnd : (items.map Item.ID).Nodup) (hid : 0 < id)
    (hpreset : goTrimSpace presetRaw = "24h")
    (hfind : findById items id = some it0) :
    ((promoteItemPure now it0).Status = "Ready to buy" →
      (snoozeItem cfg now items id presetRaw).1 = .seeOther ∧
      findById (snoozeItem cfg now items id presetRaw).2 id =
        some { promoteItemPure now it0 with
          PurchaseAllowedAt := max it0.PurchaseAllowedAt now + 24 * timeHourNS
          Status := "Waiting"
          NtfyAttempted := false } ∧
      now + 23 * timeHourNS < max it0.PurchaseAllowedAt now + 24 * timeHourNS) ∧
    (¬ (promoteItemPure now it0).Status = "Ready to buy" →
      (snoozeItem cfg now items id presetRaw).1 =
          .conflict "snooze is only allowed for ready items" ∧
        findById (snoozeItem cfg now items id presetRaw).2 id = some it0) := by
  have hsweep : (promoteReadyItemsLocked cfg now items).1 =
      items.map (promoteItemPure now) := by
    rw [promoteReadyItemsLocked_spec cfg now items hnd]
  have hfind1 : findById (items.map (promoteItemPure now)) id =
      some (promoteItemPure now it0) := by
    rw [findById_map_promote, hfind]
    rfl
  constructor
  · intro hready
    obtain ⟨items', h1, h2, _⟩ :=
      snoozeItemLoop_ok now (24 * timeHourNS) id (items.map (promoteItemPure now))
        (promoteItemPure now it0) hfind1 hready
    have hop : snoozeItem cfg now items id presetRaw = (.seeOther, items') := by
      unfold snoozeItem
      rw [if_neg (by omega), if_neg (by simp [hpreset])]
      simp only [hsweep, h1]
    have hrec : snoozedItemOf now (24 * timeHourNS) (promoteItemPure now it0) =
        { promoteItemPure now it0 with
          PurchaseAllowedAt := max it0.PurchaseAllowedAt now + 24 * timeHourNS
          Status := "Waiting"
          NtfyAttempted := false } := by
      rw [snoozedItemOf_eq, promoteItemPure_PurchaseAllowedAt]
    refine ⟨by rw [hop], ?_, ?_⟩
    · rw [hop]
      rw [h2, hrec]
    · have h24 : (0 : Int) < timeHourNS := by decide
      have hmax : now ≤ max it0.PurchaseAllowedAt now := le_max_right _ _
      omega
  · intro hready
    have h1 := snoozeItemLoop_conflict now (24 * timeHourNS) id
      (items.map (promoteItemPure now)) (promoteItemPure now it0) hfind1 hready
    have hop : snoozeItem cfg now items id presetRaw =
        (.conflict "snooze is only allowed for ready items",
         items.map (promoteItemPure now)) := by
      unfold snoozeItem
      rw [if_neg (by omega), if_neg (by simp [hpreset])]
      simp only [hsweep, h1]
    have hun : promoteItemPure now it0 = it0 := promoteItemPure_eq_self_of_ne_ready hready
    rw [hop]
    exact ⟨rfl, by rw [hfind1, hun]⟩

theorem C5_snooze_witness :
    (snoozeItem ⟨"", ""⟩ 100 [sampleItem 1 "Ready to buy" 50 false] 1 "24h").1 =
      .seeOther :=
  ((C5_snooze ⟨"", ""⟩ 100 [sampleItem 1 "Ready to buy" 50 false] 1 "24h"
      (sampleItem 1 "Ready to buy" 50 false) (by decide) (by decide) (by decide)
      (by decide)).1 (by decide)).1

theorem map_ID_map_promote (now : Int) (items : List Item) :
    ((items.map (promoteItemPure now)).map Item.ID) = items.map Item.ID := by
  rw [List.map_map]
  apply List.map_congr_left
  intro it _
  exact promoteItemPure_ID now it

theorem promoteItemPure_idem (now : Int) (it : Item) :
    promoteItemPure now (promoteItemPure now it) = promoteItemPure now it := by
  by_cases hc : it.Status = "Waiting" ∧ ¬ now < it.PurchaseAllowedAt
  · unfold promoteItemPure
    rw [if_pos hc, if_neg (by simp)]
  · unfold promoteItemPure
    rw [if_neg hc, if_neg hc]

theorem promoteItemPure_of_not_waiting {now : Int} {it : Item}
    (h : ¬ it.Status = "Waiting") : promoteItemPure now it = it := by
  unfold promoteItemPure
  rw [if_neg (by intro hc; exact h hc.1)]

/-- C6: the promotion sweep is idempotent — running it twice with the
same `now` gives the same item list as running it once; it never changes
an item already in `Ready to buy` or a terminal state, and in particular
never moves an item from `Ready to buy` back to `Waiting` (stated for a
list with unique item IDs, the data model's invariant). -/
theorem C6_sweep_idempotent (cfg : NtfyConfig) (now : Int) (items : List Item)
    (hnd : (items.map Item.ID).Nodup) :
    ((promoteReadyItemsLocked cfg now ((promoteReadyItemsLocked cfg now items).1)).1 =
      (promoteReadyItemsLocked cfg now items).1) ∧
    (∀ (j : Nat) (it : Item), items[j]? = some it → ¬ it.Status = "Waiting" →
      ((promoteReadyItemsLocked cfg now items).1)[j]? = some it) ∧
    (∀ (j : Nat) (it : Item), items[j]? = some it → it.Status = "Ready to buy" →
      ∃ it', ((promoteReadyItemsLocked cfg now items).1)[j]? = some it' ∧
        it'.Status = "Ready to buy") := by
  have h1 : (promoteReadyItemsLocked cfg now items).1 =
      items.map (promoteItemPure now) := by
    rw [promoteReadyItemsLocked_spec cfg now items hnd]
  have hnd1 : ((items.map (promoteItemPure now)).map Item.ID).Nodup := by
    rw [map_ID_map_promote]
    exact hnd
  refine ⟨?_, ?_, ?_⟩
  · rw [h1, promoteReadyItemsLocked_spec cfg now _ hnd1, List.map_map]
    apply List.map_congr_left
    intro it _
    exact promoteItemPure_idem now it
  · intro j it hj hst
    rw [h1, List.getElem?_map, hj]
    simp [promoteItemPure_of_not_waiting hst]
  · intro j it hj hst
    refine ⟨it, ?_, hst⟩
    rw [h1, List.getElem?_map, hj]
    have hnw : ¬ it.Status = "Waiting" := by rw [hst]; decide
    simp [promoteItemPure_of_not_waiting hnw]

theorem C6_sweep_idempotent_witness :
    (promoteReadyItemsLocked ⟨"", ""⟩ 100
        ((promoteReadyItemsLocked ⟨"", ""⟩ 100
          [sampleItem 1 "Waiting" 50 false, sampleItem 2 "Bought" 0 false]).1)).1 =
      (promoteReadyItemsLocked ⟨"", ""⟩ 100
        [sampleItem 1 "Waiting" 50 false, sampleItem 2 "Bought" 0 false]).1 :=
  (C6_sweep_idempotent ⟨"", ""⟩ 100
    [sampleItem 1 "Waiting" 50 false, sampleItem 2 "Bought" 0 false] (by decide)).1

theorem updatedItemOf_PurchaseAllowedAt (incoming : Item) (paa now : Int) (existing : Item) :
    (updatedItemOf incoming paa now existing).PurchaseAllowedAt = paa := by
  simp only [updatedItemOf]
  split
  · rfl
  · split <;> rfl

theorem updatedItemOf_WaitPreset (incoming : Item) (paa now : Int) (existing : Item) :
    (updatedItemOf incoming paa now existing).WaitPreset = incoming.WaitPreset := by
  simp only [updatedItemOf]
  split
  · rfl
  · split <;> rfl

theorem updatedItemOf_HasPriceValue (incoming : Item) (paa now : Int) (existing : Item) :
    (updatedItemOf incoming paa now existing).HasPriceValue = incoming.HasPriceValue := by
  simp only [updatedItemOf]
  split
  · rfl
  · split <;> rfl

theorem updatedItemOf_PriceValue (incoming : Item) (paa now : Int) (existing : Item) :
    (updatedItemOf incoming paa now existing).PriceValue = incoming.PriceValue := by
  simp only [updatedItemOf]
  split
  · rfl
  · split <;> rfl

theorem updateItem_ok (form : ItemForm) (id : Int) (now localOffsetSec : Int)
    (items : List Item) (paa : Int)
    (hid : 0 < id)
    (htitle : ¬ goTrimSpace form.title = "")
    (hres : resolvePurchaseAllowedAt (goTrimSpace form.waitPreset)
        (goTrimSpace form.waitCustomHours) (goTrimSpace form.purchaseAllowedAt)
        (goTrimSpace form.timezoneOffsetMinutes) localOffsetSec now = .ok paa) :
    updateItem form id now localOffsetSec items =
      match updateItemLoop id (incomingItemOf form id) paa now items with
      | some items' => (.seeOther, items')
      | none => (.notFound, items) := by
  unfold updateItem
  rw [if_neg (by omega), if_neg htitle, hres]

/-- An item form that keeps all text fields except the wait preset. -/
def plainForm (waitPreset purchaseAllowedAt : String) : ItemForm :=
  { title := "x"
    price := ""
    link := ""
    note := ""
    tags := ""
    waitPreset := waitPreset
    waitCustomHours := ""
    purchaseAllowedAt := purchaseAllowedAt
    timezoneOffsetMinutes := "" }

/-- C1 counterexample: the claim fails on the code in both terminal
states.  Editing a `Bought` item (ID 1) with preset `7d` at `now = 100`
gives a new eligibility instant strictly in the future, yet the stored
status stays `Bought` with the flag still set — not `Waiting` with the
flag reset as the claim demands.  Editing a `Skipped` item (ID 2) with a
`date` preset whose instant is in the past gives `Ready to buy` — the
prior terminal status is not kept as the claim demands. -/
theorem C1_terminal_edit_cex :
    ((findById (updateItem (plainForm "7d" "") 1 100 0
          [sampleItem 1 "Bought" 0 true]).2 1).map
        (fun it => (it.Status, it.NtfyAttempted)) = some ("Bought", true) ∧
      ¬ (findById (updateItem (plainForm "7d" "") 1 100 0
          [sampleItem 1 "Bought" 0 true]).2 1).map
        (fun it => (it.Status, it.NtfyAttempted)) = some ("Waiting", false)) ∧
    ((findById (updateItem (plainForm "date" "1970-01-02T00:00")
            2 (wallToInstant 2020 1 1 0 0 0) 0 [sampleItem 2 "Skipped" 0 false]).2 2).map
        Item.Status = some "Ready to buy" ∧
      ¬ (findById (updateItem (plainForm "date" "1970-01-02T00:00")
            2 (wallToInstant 2020 1 1 0 0 0) 0 [sampleItem 2 "Skipped" 0 false]).2 2).map
        Item.Status = some "Skipped") := by
  decide

/-- C1 as amended: for a validated, successful edit of an existing item,
a prior `Bought` status is preserved unconditionally (whatever the new
eligibility instant, with the notification-attempted flag untouched),
while an item in any other prior status — `Skipped` included — has its
status re-derived from the newly resolved eligibility instant exactly as
at creation: `Waiting` with the flag reset when the instant is strictly
in the future, else `Ready to buy` with the flag kept. -/
theorem C1_terminal_edit (form : ItemForm) (id : Int) (now localOffsetSec : Int)
    (items : List Item) (existing : Item) (paa : Int)
    (hid : 0 < id)
    (htitle : ¬ goTrimSpace form.title = "")
    (hres : resolvePurchaseAllowedAt (goTrimSpace form.waitPreset)
        (goTrimSpace form.waitCustomHours) (goTrimSpace form.purchaseAllowedAt)
        (goTrimSpace form.timezoneOffsetMinutes) localOffsetSec now = .ok paa)
    (hfind : findById items id = some existing) :
    (updateItem form id now localOffsetSec items).1 = .seeOther ∧
    ∃ it', findById (updateItem form id now localOffsetSec items).2 id = some it' ∧
      it'.PurchaseAllowedAt = paa ∧
      (existing.Status = "Bought" →
        it'.Status = "Bought" ∧ it'.NtfyAttempted = existing.NtfyAttempted) ∧
      (¬ existing.Status = "Bought" → now < paa →
        it'.Status = "Waiting" ∧ it'.NtfyAttempted = false) ∧
      (¬ existing.Status = "Bought" → ¬ now < paa →
        it'.Status = "Ready to buy" ∧ it'.NtfyAttempted = existing.NtfyAttempted) := by
  obtain ⟨items', hloop, hfind'⟩ :=
    updateItemLoop_ok id (incomingItemOf form id) paa now rfl items existing hfind
  have hop : updateItem form id now localOffsetSec items = (.seeOther, items') := by
    rw [updateItem_ok form id now localOffsetSec items paa hid htitle hres, hloop]
  refine ⟨by rw [hop], updatedItemOf (incomingItemOf form id) paa now existing,
    by rw [hop]; exact hfind', updatedItemOf_PurchaseAllowedAt _ _ _ _, ?_, ?_, ?_⟩
  · intro hb
    simp only [updatedItemOf, if_pos hb]
    simp
  · intro hb hlt
    have hst : activeStatusForPurchaseAllowedAt paa now = "Waiting" := by
      unfold activeStatusForPurchaseAllowedAt
      rw [if_pos hlt]
    simp only [updatedItemOf, if_neg hb, hst]
    simp
  · intro hb hlt
    have hst : activeStatusForPurchaseAllowedAt paa now = "Ready to buy" := by
      unfold activeStatusForPurchaseAllowedAt
      rw [if_neg hlt]
    simp only [updatedItemOf, if_neg hb, hst]
    simp

theorem C1_terminal_edit_witness :
    (updateItem (plainForm "7d" "") 1 100 0 [sampleItem 1 "Bought" 0 true]).1 =
      .seeOther :=
  (C1_terminal_edit (plainForm "7d" "") 1 100 0 [sampleItem 1 "Bought" 0 true]
    (sampleItem 1 "Bought" 0 true) (100 + 7 * (24 * timeHourNS))
    (by decide) (by decide) (by decide) (by decide)).1

/-- From the spec's words (§4.5): a mutating operation "first runs the
promotion sweep under the same lock acquisition" and then applies its
own mutation — the create handler as the claim describes it. -/
def createItemSweepFirst (cfg : NtfyConfig) (defaults : ProfileDefaults) (form : ItemForm)
    (now localOffsetSec nextID : Int) (items : List Item) : HandlerResult × List Item :=
  createItem defaults form now localOffsetSec nextID (promoteReadyItemsLocked cfg now items).1

/-- From the spec's words (§4.5): the edit handler with the promotion
sweep run first. -/
def updateItemSweepFirst (cfg : NtfyConfig) (form : ItemForm)
    (id now localOffsetSec : Int) (items : List Item) : HandlerResult × List Item :=
  updateItem form id now localOffsetSec (promoteReadyItemsLocked cfg now items).1

/-- From the spec's words (§4.5): the delete handler with the promotion
sweep run first. -/
def deleteItemSweepFirst (cfg : NtfyConfig) (now : Int) (items : List Item)
    (id : Int) : HandlerResult × List Item :=
  deleteItem (promoteReadyItemsLocked cfg now items).1 id

/-- C2 counterexample: item create, item edit and item delete do not run
the promotion sweep.  With a stale `Waiting` item (ID 1, eligible since
instant 0) in the list at `now = 100`, each of the three handlers leaves
that item `Waiting`, so each differs from the sweep-first operation the
claim describes (which would promote it to `Ready to buy`). -/
theorem C2_mutations_sweep_cex :
    (deleteItem [sampleItem 1 "Waiting" 0 false, sampleItem 2 "Waiting" 900 false] 2 ≠
      deleteItemSweepFirst ⟨"", ""⟩ 100
        [sampleItem 1 "Waiting" 0 false, sampleItem 2 "Waiting" 900 false] 2) ∧
    (createItem ⟨"24h", ""⟩ (plainForm "24h" "") 100 0 3 [sampleItem 1 "Waiting" 0 false] ≠
      createItemSweepFirst ⟨"", ""⟩ ⟨"24h", ""⟩ (plainForm "24h" "") 100 0 3
        [sampleItem 1 "Waiting" 0 false]) ∧
    (updateItem (plainForm "24h" "") 2 100 0
        [sampleItem 1 "Waiting" 0 false, sampleItem 2 "Waiting" 900 false] ≠
      updateItemSweepFirst ⟨"", ""⟩ (plainForm "24h" "") 2 100 0
        [sampleItem 1 "Waiting" 0 false, sampleItem 2 "Waiting" 900 false]) := by
  decide

theorem updateItemStatusLoop_mem (id : Int) (ns : String) :
    ∀ (items items' : List Item), updateItemStatusLoop id ns items = .ok items' →
      ∀ y ∈ items', y ∈ items ∨ y.Status = ns := by
  intro items
  induction items with
  | nil => intro items' h; simp [updateItemStatusLoop] at h
  | cons a rest ih =>
    intro items' h y hy
    by_cases pa : a.ID = id
    · simp only [updateItemStatusLoop, if_pos pa] at h
      by_cases hst : a.Status = "Ready to buy"
      · rw [if_neg (not_not_intro hst)] at h
        cases h
        rcases List.mem_cons.mp hy with h1 | h1
        · right; rw [h1]
        · left; exact List.mem_cons_of_mem _ h1
      · rw [if_pos hst] at h
        cases h
    · simp only [updateItemStatusLoop, if_neg pa] at h
      cases hr : updateItemStatusLoop id ns rest with
      | ok rest' =>
        rw [hr] at h
        cases h
        rcases List.mem_cons.mp hy with h1 | h1
        · left; rw [h1]; exact List.mem_cons_self a rest
        · rcases ih rest' hr y h1 with h2 | h2
          · left; exact List.mem_cons_of_mem _ h2
          · right; exact h2
      | conflict => rw [hr] at h; cases h
      | notFound => rw [hr] at h; cases h

theorem snoozeItemLoop_mem (now duration id : Int) :
    ∀ (items items' : List Item), snoozeItemLoop now duration id items = .ok items' →
      ∀ y ∈ items', y ∈ items ∨ ∃ x, y = snoozedItemOf now duration x := by
  intro items
  induction items with
  | nil => intro items' h; simp [snoozeItemLoop] at h
  | cons a rest ih =>
    intro items' h y hy
    by_cases pa : a.ID = id
    · simp only [snoozeItemLoop, if_pos pa] at h
      by_cases hst : a.Status = "Ready to buy"
      · rw [if_neg (not_not_intro hst)] at h
        cases h
        rcases List.mem_cons.mp hy with h1 | h1
        · right; exact ⟨a, by rw [h1]; rfl⟩
        · left; exact List.mem_cons_of_mem _ h1
      · rw [if_pos hst] at h
        cases h
    · simp only [snoozeItemLoop, if_neg pa] at h
      cases hr : snoozeItemLoop now duration id rest with
      | ok rest' =>
        rw [hr] at h
        cases h
        rcases List.mem_cons.mp hy with h1 | h1
        · left; rw [h1]; exact List.mem_cons_self a rest
        · rcases ih rest' hr y h1 with h2 | h2
          · left; exact List.mem_cons_of_mem _ h2
          · right; exact h2
      | conflict => rw [hr] at h; cases h
      | notFound => rw [hr] at h; cases h

theorem noStale_map_promote (now : Int) (items : List Item) :
    ∀ it ∈ items.map (promoteItemPure now), it.Status = "Waiting" →
      now < it.PurchaseAllowedAt := by
  intro it hit hst
  obtain ⟨x, _, hx⟩ := List.mem_map.mp hit
  by_cases hc : x.Status = "Waiting" ∧ ¬ now < x.PurchaseAllowedAt
  · exfalso
    have : it.Status = "Ready to buy" := by
      rw [← hx]
      unfold promoteItemPure
      rw [if_pos hc]
    rw [this] at hst
    exact absurd hst (by decide)
  · have : it = x := by rw [← hx]; unfold promoteItemPure; rw [if_neg hc]
    subst this
    rcases not_and_or.mp hc with h1 | h1
    · exact absurd hst h1
    · exact not_not.mp h1

/-- C2 as amended: of the item-list mutations the claim names, exactly
status-set and snooze run the promotion sweep under the lock before
their own mutation — after either of them (with validated inputs and
unique IDs) no `Waiting` item whose eligibility instant has passed
remains observable; item create, item edit and item delete do not run
the sweep, per the counterexample. -/
theorem C2_mutations_sweep (cfg : NtfyConfig) (now : Int) (items : List Item)
    (hnd : (items.map Item.ID).Nodup) :
    (∀ (id : Int) (ns : String), 0 < id → (ns = "Bought" ∨ ns = "Skipped") →
      ∀ it ∈ (updateItemStatus cfg now items id ns).2,
        it.Status = "Waiting" → now < it.PurchaseAllowedAt) ∧
    (∀ (id : Int) (pr : String), 0 < id → goTrimSpace pr = "24h" →
      ∀ it ∈ (snoozeItem cfg now items id pr).2,
        it.Status = "Waiting" → now < it.PurchaseAllowedAt) := by
  have hsweep : (promoteReadyItemsLocked cfg now items).1 =
      items.map (promoteItemPure now) := by
    rw [promoteReadyItemsLocked_spec cfg now items hnd]
  constructor
  · intro id ns hid hns it hit hst
    have hvalid : ¬ ¬ (ns = "Bought" ∨ ns = "Skipped") := not_not_intro hns
    cases hl : updateItemStatusLoop id ns (items.map (promoteItemPure now)) with
    | ok items2 =>
      have hop : (updateItemStatus cfg now items id ns).2 = items2 := by
        unfold updateItemStatus
        rw [if_neg (by omega), if_neg hvalid]
        simp only [hsweep, hl]
      rw [hop] at hit
      rcases updateItemStatusLoop_mem id ns _ items2 hl it hit with h1 | h1
      · exact noStale_map_promote now items it h1 hst
      · exfalso
        rw [h1] at hst
        rcases hns with h2 | h2 <;> rw [h2] at hst <;> exact absurd hst (by decide)
    | conflict =>
      have hop : (updateItemStatus cfg now items id ns).2 =
          items.map (promoteItemPure now) := by
        unfold updateItemStatus
        rw [if_neg (by omega), if_neg hvalid]
        simp only [hsweep, hl]
      rw [hop] at hit
      exact noStale_map_promote now items it hit hst
    | notFound =>
      have hop : (updateItemStatus cfg now items id ns).2 =
          items.map (promoteItemPure now) := by
        unfold updateItemStatus
        rw [if_neg (by omega), if_neg hvalid]
        simp only [hsweep, hl]
      rw [hop] at hit
      exact noStale_map_promote now items it hit hst
  · intro id pr hid hpr it hit hst
    cases hl : snoozeItemLoop now (24 * timeHourNS) id (items.map (promoteItemPure now)) with
    | ok items2 =>
      have hop : (snoozeItem cfg now items id pr).2 = items2 := by
        unfold snoozeItem
        rw [if_neg (by omega), if_neg (by simp [hpr])]
        simp only [hsweep, hl]
      rw [hop] at hit
      rcases snoozeItemLoop_mem now (24 * timeHourNS) id _ items2 hl it hit with h1 | h1
      · exact noStale_map_promote now items it h1 hst
      · obtain ⟨x, hx⟩ := h1
        rw [hx]
        have hhour : (0 : Int) < timeHourNS := by decide
        simp only [snoozedItemOf]
        omega
    | conflict =>
      have hop : (snoozeItem cfg now items id pr).2 =
          items.map (promoteItemPure now) := by
        unfold snoozeItem
        rw [if_neg (by omega), if_neg (by simp [hpr])]
        simp only [hsweep, hl]
      rw [hop] at hit
      exact noStale_map_promote now items it hit hst
    | notFound =>
      have hop : (snoozeItem cfg now items id pr).2 =
          items.map (promoteItemPure now) := by
        unfold snoozeItem
        rw [if_neg (by omega), if_neg (by simp [hpr])]
        simp only [hsweep, hl]
      rw [hop] at hit
      exact noStale_map_promote now items it hit hst

theorem C2_mutations_sweep_witness :
    (100 : Int) < (sampleItem 1 "Waiting" 900 false).PurchaseAllowedAt :=
  (C2_mutations_sweep ⟨"", ""⟩ 100
      [sampleItem 1 "Waiting" 900 false, sampleItem 2 "Ready to buy" 0 false]
      (by decide)).1 2 "Bought" (by decide) (Or.inl rfl)
    (sampleItem 1 "Waiting" 900 false) (by decide) (by decide)

theorem normalize_mem_allowed (s : String) :
    normalizeItemWaitPreset s ∈ (["24h", "7d", "30d", "custom", "date"] : List String) := by
  unfold normalizeItemWaitPreset
  by_cases hc : goTrimSpace s = "7d" ∨ goTrimSpace s = "30d" ∨
      goTrimSpace s = "custom" ∨ goTrimSpace s = "date"
  · rw [if_pos hc]
    rcases hc with h | h | h | h <;> simp [h]
  · rw [if_neg hc]
    simp

theorem createItem_ok_shape (defaults : ProfileDefaults) (form : ItemForm)
    (now localOffsetSec nextID : Int) (items : List Item) (it : Item) (rest : List Item)
    (heq : createItem defaults form now localOffsetSec nextID items = (.seeOther, it :: rest)) :
    ∃ paa, it = createdItemOf defaults form now nextID paa ∧ rest = items := by
  unfold createItem at heq
  simp only [] at heq
  split at heq
  · simp at heq
  · split at heq
    · simp at heq
    · rename_i paa hres
      simp only [Prod.mk.injEq, List.cons.injEq] at heq
      exact ⟨paa, heq.2.1.symm, heq.2.2.symm⟩

theorem updateItem_ok_shape (form : ItemForm) (id : Int) (now localOffsetSec : Int)
    (items res : List Item) (it' : Item)
    (heq : updateItem form id now localOffsetSec items = (.seeOther, res))
    (hfr : findById res id = some it') :
    ∃ paa existing, findById items id = some existing ∧
      it' = updatedItemOf (incomingItemOf form id) paa now existing := by
  unfold updateItem at heq
  split at heq
  · simp at heq
  · split at heq
    · simp at heq
    · split at heq
      · simp at heq
      · rename_i paa hres
        split at heq
        · rename_i items' hloop
          cases hfind : findById items id with
          | none =>
            rw [updateItemLoop_none id (incomingItemOf form id) paa now items hfind] at hloop
            cases hloop
          | some existing =>
            obtain ⟨items'', hloop2, hfind2⟩ :=
              updateItemLoop_ok id (incomingItemOf form id) paa now rfl items existing hfind
            rw [hloop2] at hloop
            cases hloop
            simp only [Prod.mk.injEq] at heq
            rw [← heq.2] at hfr
            rw [hfind2] at hfr
            cases hfr
            exact ⟨paa, existing, rfl, rfl⟩
        · simp at heq

/-- C10: after any successful item create or edit, the stored wait
preset is one of exactly `24h`, `7d`, `30d`, `custom`, `date`:
`normalizeItemWaitPreset` always lands in that set, any string whose
trim is not one of `7d`/`30d`/`custom`/`date` — the empty string
included — is normalized to `24h`, and both the created record and the
record stored by an edit carry the normalized preset. -/
theorem C10_preset_invariant :
    (∀ s : String, normalizeItemWaitPreset s ∈
      (["24h", "7d", "30d", "custom", "date"] : List String)) ∧
    (∀ s : String,
      ¬ goTrimSpace s = "7d" → ¬ goTrimSpace s = "30d" →
      ¬ goTrimSpace s = "custom" → ¬ goTrimSpace s = "date" →
      normalizeItemWaitPreset s = "24h") ∧
    (∀ (defaults : ProfileDefaults) (form : ItemForm)
        (now localOffsetSec nextID : Int) (items : List Item) (it : Item) (rest : List Item),
      createItem defaults form now localOffsetSec nextID items = (.seeOther, it :: rest) →
      it.WaitPreset ∈ (["24h", "7d", "30d", "custom", "date"] : List String)) ∧
    (∀ (form : ItemForm) (id : Int) (now localOffsetSec : Int)
        (items res : List Item) (it' : Item),
      updateItem form id now localOffsetSec items = (.seeOther, res) →
      findById res id = some it' →
      it'.WaitPreset ∈ (["24h", "7d", "30d", "custom", "date"] : List String)) := by
  refine ⟨normalize_mem_allowed, ?_, ?_, ?_⟩
  · intro s h1 h2 h3 h4
    unfold normalizeItemWaitPreset
    rw [if_neg]
    intro hc
    rcases hc with h | h | h | h
    · exact h1 h
    · exact h2 h
    · exact h3 h
    · exact h4 h
  · intro defaults form now loc nid items it rest heq
    obtain ⟨paa, hit, -⟩ := createItem_ok_shape defaults form now loc nid items it rest heq
    rw [hit]
    exact normalize_mem_allowed _
  · intro form id now loc items res it' heq hfr
    obtain ⟨paa, existing, -, hit⟩ := updateItem_ok_shape form id now loc items res it' heq hfr
    rw [hit, updatedItemOf_WaitPreset]
    exact normalize_mem_allowed _

theorem C10_preset_invariant_witness :
    normalizeItemWaitPreset "bogus" = "24h" :=
  C10_preset_invariant.2.1 "bogus" (by decide) (by decide) (by decide) (by decide)

/-- C9 counterexample: the string `inf` parses with no error (Go's
`ParseFloat` accepts it) to `+Inf`, which is not `<= 0`, so `parsePrice`
sets the has-price-value flag even though the value is not a positive
finite number — contradicting the claim that the flag is set only for
strings parsing to a positive finite number. -/
theorem C9_price_flag_cex :
    (parsePrice "inf").2 = true ∧ GoFloat.isFinitePos (parsePrice "inf").1 = false := by
  decide

/-- C9 as amended: the has-price-value flag is set exactly when the
trimmed price string parses without error to a value `v` with the Go
comparison `v <= 0` false; positive finite values set it, but so do
`+Inf` and NaN (for which `v <= 0` is false), while parse failures,
zero, negatives and `-Inf` leave it unset.  Item create and item edit
store exactly this flag and value. -/
theorem C9_price_flag :
    (∀ s : String, (parsePrice s).2 = true ↔
      ∃ v, goParseFloat (goTrimSpace s) = .ok v ∧ v.le0 = false) ∧
    (∀ (s : String) (v : GoFloat), goParseFloat (goTrimSpace s) = .ok v → v.le0 = false →
      parsePrice s = (v, true)) ∧
    (∀ (defaults : ProfileDefaults) (form : ItemForm)
        (now localOffsetSec nextID : Int) (items : List Item) (it : Item) (rest : List Item),
      createItem defaults form now localOffsetSec nextID items = (.seeOther, it :: rest) →
      it.HasPriceValue = (parsePrice (goTrimSpace form.price)).2 ∧
        it.PriceValue = (parsePrice (goTrimSpace form.price)).1) ∧
    (∀ (form : ItemForm) (id : Int) (now localOffsetSec : Int)
        (items res : List Item) (it' : Item),
      updateItem form id now localOffsetSec items = (.seeOther, res) →
      findById res id = some it' →
      it'.HasPriceValue = (parsePrice (goTrimSpace form.price)).2 ∧
        it'.PriceValue = (parsePrice (goTrimSpace form.price)).1) := by
  refine ⟨?_, ?_, ?_, ?_⟩
  · intro s
    cases hp : goParseFloat (goTrimSpace s) with
    | error e =>
      simp [parsePrice, hp]
    | ok v =>
      by_cases hle : v.le0 = true
      · simp [parsePrice, hp, hle]
      · simp only [Bool.not_eq_true] at hle
        simp [parsePrice, hp, hle]
  · intro s v hp hle
    simp [parsePrice, hp, hle]
  · intro defaults form now loc nid items it rest heq
    obtain ⟨paa, hit, -⟩ := createItem_ok_shape defaults form now loc nid items it rest heq
    rw [hit]
    exact ⟨rfl, rfl⟩
  · intro form id now loc items res it' heq hfr
    obtain ⟨paa, existing, -, hit⟩ := updateItem_ok_shape form id now loc items res it' heq hfr
    rw [hit, updatedItemOf_HasPriceValue, updatedItemOf_PriceValue]
    exact ⟨rfl, rfl⟩

theorem C9_price_flag_witness :
    parsePrice "19.99" = (.finite (Rat.divInt 1999 100), true) :=
  C9_price_flag.2.1 "19.99" (.finite (Rat.divInt 1999 100)) (by decide) (by decide)

theorem goFloatTimesHour_of_int (q : ℚ) (d : Int)
    (h : q * ((timeHourNS : Int) : ℚ) = (d : ℚ)) :
    goFloatTimesHour (.finite q) = d := by
  have hred : goFloatTimesHour (.finite q) = (q.num * timeHourNS).tdiv (q.den : Int) := rfl
  rw [hred]
  have hden : ((q.den : ℚ)) ≠ 0 := by
    exact_mod_cast q.den_nz
  have hq : (q.num : ℚ) = q * (q.den : ℚ) := (div_eq_iff hden).mp (Rat.num_div_den q)
  have h1 : (q.num : ℚ) * ((timeHourNS : Int) : ℚ) = (d : ℚ) * (q.den : ℚ) := by
    rw [hq]
    calc q * (q.den : ℚ) * ((timeHourNS : Int) : ℚ)
        = q * ((timeHourNS : Int) : ℚ) * (q.den : ℚ) := by ring
      _ = (d : ℚ) * (q.den : ℚ) := by rw [h]
  have hnum : q.num * timeHourNS = d * (q.den : Int) := by exact_mod_cast h1
  have hden' : ((q.den : Int)) ≠ 0 := by exact_mod_cast q.den_nz
  rw [hnum, Int.mul_tdiv_cancel d hden']


/-- C7 counterexample: with preset `custom` and custom-hours string
`inf`, Go's `ParseFloat` succeeds (yielding `+Inf`) and the `hours <= 0`
test is false, so `parseWaitDuration` succeeds — returning the
implementation-defined negative duration `-2^63` ns — instead of
failing the claimed missing/non-numeric/zero/negative validation or
returning hours × 1h for a strictly positive real number of hours. -/
theorem C7_wait_presets_cex :
    parseWaitDuration "custom" "inf" = .ok (-(2 ^ 63)) ∧ (-(2 ^ 63) : Int) < 0 := by
  constructor
  · decide
  · decide

/-- C7 as amended: for a preset that does not normalize to `date` the
resolver returns reference + the wait duration; trimmed preset `""` or
`24h` yields 24 hours, `7d` 7×24 hours, `30d` 30×24 hours; `custom`
with an hours string parsing to a strictly positive rational q yields
exactly q×1h; `custom` fails with the validation error exactly when the
string does not parse or parses to a value v with the Go comparison
`v <= 0` true (zero, negatives, `-Inf`) — but `+Inf` and NaN hours
succeed, with the int64-conversion artifact `-2^63` ns as duration; any
other non-empty trimmed preset fails with the selection error. -/
theorem C7_wait_presets :
    (∀ wp wch pa tz loc now, ¬ normalizeItemWaitPreset wp = "date" →
      resolvePurchaseAllowedAt wp wch pa tz loc now =
        (parseWaitDuration wp wch).map (fun d => now + d)) ∧
    (∀ wp wch, goTrimSpace wp = "" ∨ goTrimSpace wp = "24h" →
      parseWaitDuration wp wch = .ok (24 * timeHourNS)) ∧
    (∀ wp wch, goTrimSpace wp = "7d" →
      parseWaitDuration wp wch = .ok (7 * 24 * timeHourNS)) ∧
    (∀ wp wch, goTrimSpace wp = "30d" →
      parseWaitDuration wp wch = .ok (30 * 24 * timeHourNS)) ∧
    (∀ (wp wch : String) (q : ℚ) (d : Int), goTrimSpace wp = "custom" →
      goParseFloat (goTrimSpace wch) = .ok (.finite q) → 0 < q →
      q * ((timeHourNS : Int) : ℚ) = (d : ℚ) →
      parseWaitDuration wp wch = .ok d) ∧
    (∀ wp wch, goTrimSpace wp = "custom" →
      (goParseFloat (goTrimSpace wch) = .error () ∨
        ∃ v, goParseFloat (goTrimSpace wch) = .ok v ∧ v.le0 = true) →
      parseWaitDuration wp wch =
        .error "Please enter a valid number of custom hours (> 0).") ∧
    (∀ (wp wch : String) (v : GoFloat), goTrimSpace wp = "custom" →
      goParseFloat (goTrimSpace wch) = .ok v → (v = .posInf ∨ v = .nan) →
      parseWaitDuration wp wch = .ok (-(2 ^ 63))) ∧
    (∀ wp wch, ¬ goTrimSpace wp ∈ (["", "24h", "7d", "30d", "custom"] : List String) →
      parseWaitDuration wp wch = .error "Please select a valid wait time.") := by
  refine ⟨?_, ?_, ?_, ?_, ?_, ?_, ?_, ?_⟩
  · intro wp wch pa tz loc now h
    unfold resolvePurchaseAllowedAt
    rw [if_neg h]
    cases hd : parseWaitDuration wp wch <;> simp [hd, Except.map]
  · intro wp wch h
    rcases h with h | h <;> simp [parseWaitDuration, h]
  · intro wp wch h
    simp [parseWaitDuration, h]
  · intro wp wch h
    simp [parseWaitDuration, h]
  · intro wp wch q d hwp hpf hq hprod
    have hd : goFloatTimesHour (.finite q) = d := goFloatTimesHour_of_int q d hprod
    have hle : GoFloat.le0 (.finite q) = false := by
      simp only [GoFloat.le0, decide_eq_false_iff_not, not_le]
      exact hq
    simp [parseWaitDuration, hwp, hpf, hle, hd]
  · intro wp wch hwp h
    rcases h with h | ⟨v, hv, hle⟩
    · simp [parseWaitDuration, hwp, h]
    · simp [parseWaitDuration, hwp, hv, hle]
  · intro wp wch v hwp hpf hv
    rcases hv with rfl | rfl <;>
      simp [parseWaitDuration, hwp, hpf, GoFloat.le0, goFloatTimesHour]
  · intro wp wch h
    simp only [List.mem_cons, List.not_mem_nil, or_false] at h
    push_neg at h
    obtain ⟨h0, h1, h2, h3, h4⟩ := h
    simp [parseWaitDuration, h0, h1, h2, h3, h4]

theorem C7_wait_presets_witness :
    parseWaitDuration "custom" "0.5" = .ok 1800000000000 ∧
    parseWaitDuration "7d" "" = .ok (7 * 24 * timeHourNS) ∧
    parseWaitDuration "yesterday" "" = .error "Please select a valid wait time." :=
  ⟨C7_wait_presets.2.2.2.2.1 "custom" "0.5" (Rat.divInt 5 10) 1800000000000
      (by decide) (by decide) (by decide)
      (by norm_num [Rat.divInt_eq_div, timeHourNS]),
   C7_wait_presets.2.2.1 "7d" "" (by decide),
   C7_wait_presets.2.2.2.2.2.2.2 "yesterday" "" (by decide)⟩

/-- C8: for the `date` wait preset the resolver requires a non-blank
`YYYY-MM-DDTHH:MM` timestamp; with a non-empty trimmed client offset
string parsing as an integer `off` minutes, the wall-clock fields are
interpreted in the fixed zone `-off * 60` seconds east of UTC; with a
blank offset string the server's local zone offset is used; a blank
timestamp fails with the missing-date message and an unparseable
timestamp (or unparseable offset) with the invalid-date message; in
particular `2026-02-12T10:30` with offset `-120` resolves to the
instant 2026-02-12T08:30 UTC, i.e. 10:30 at UTC+02:00. -/
theorem C8_date_preset :
    (∀ (wch raw tz : String) (loc now off y mo d h mi : Int),
      ¬ goTrimSpace tz = "" → goAtoi (goTrimSpace tz) = .ok off →
      goParseMinuteLayout (goTrimSpace raw).toList = some (y, mo, d, h, mi) →
      resolvePurchaseAllowedAt "date" wch raw tz loc now =
        .ok (wallToInstant y mo d h mi (-off * 60))) ∧
    (∀ (wch raw tz : String) (loc now y mo d h mi : Int),
      goTrimSpace tz = "" →
      goParseMinuteLayout (goTrimSpace raw).toList = some (y, mo, d, h, mi) →
      resolvePurchaseAllowedAt "date" wch raw tz loc now =
        .ok (wallToInstant y mo d h mi loc)) ∧
    (∀ (wch raw tz : String) (loc now : Int),
      goTrimSpace raw = "" →
      resolvePurchaseAllowedAt "date" wch raw tz loc now =
        .error "Please enter a buy-after date and time.") ∧
    (∀ (wch raw tz : String) (loc now : Int),
      ¬ goTrimSpace raw = "" →
      goParseMinuteLayout (goTrimSpace raw).toList = none →
      resolvePurchaseAllowedAt "date" wch raw tz loc now =
        .error "Please enter a valid buy-after date and time.") ∧
    (resolvePurchaseAllowedAt "date" "" "2026-02-12T10:30" "-120" 0 0 =
      .ok (wallToInstant 2026 2 12 8 30 0)) := by
  refine ⟨?_, ?_, ?_, ?_, ?_⟩
  · intro wch raw tz loc now off y mo d h mi htz hoff hlay
    have hne : ¬ goTrimSpace raw = "" := by
      intro h0
      rw [h0] at hlay
      have hnil : goParseMinuteLayout (("" : String).toList) = none := rfl
      rw [hnil] at hlay
      cases hlay
    unfold resolvePurchaseAllowedAt
    rw [if_pos (show normalizeItemWaitPreset "date" = "date" by decide), if_neg hne]
    have hlay2 : goParseMinuteLayout (goTrimSpace raw).data = some (y, mo, d, h, mi) := hlay
    simp [parsePurchaseAllowedAt, htz, hoff, hlay2]
  · intro wch raw tz loc now y mo d h mi htz hlay
    have hne : ¬ goTrimSpace raw = "" := by
      intro h0
      rw [h0] at hlay
      have hnil : goParseMinuteLayout (("" : String).toList) = none := rfl
      rw [hnil] at hlay
      cases hlay
    unfold resolvePurchaseAllowedAt
    rw [if_pos (show normalizeItemWaitPreset "date" = "date" by decide), if_neg hne]
    have hlay2 : goParseMinuteLayout (goTrimSpace raw).data = some (y, mo, d, h, mi) := hlay
    simp [parsePurchaseAllowedAt, htz, hlay2]
  · intro wch raw tz loc now h
    unfold resolvePurchaseAllowedAt
    rw [if_pos (show normalizeItemWaitPreset "date" = "date" by decide), if_pos h]
  · intro wch raw tz loc now hne hlay
    unfold resolvePurchaseAllowedAt
    rw [if_pos (show normalizeItemWaitPreset "date" = "date" by decide), if_neg hne]
    have hlay2 : goParseMinuteLayout (goTrimSpace raw).data = none := hlay
    by_cases htz : goTrimSpace tz = ""
    · simp [parsePurchaseAllowedAt, htz, hlay2]
    · cases hoff : goAtoi (goTrimSpace tz) with
      | error e => simp [parsePurchaseAllowedAt, htz, hoff]
      | ok off => simp [parsePurchaseAllowedAt, htz, hoff, hlay2]
  · decide

theorem C8_date_preset_witness :
    resolvePurchaseAllowedAt "date" "" "2026-02-12T10:30" "-120" 0 0 =
      .ok (wallToInstant 2026 2 12 10 30 (-(-120) * 60)) :=
  C8_date_preset.1 "" "2026-02-12T10:30" "-120" 0 0 (-120) 2026 2 12 10 30
    (by decide) (by decide) (by decide)

/-- Number of outbound ntfy network attempts for the item with the given
ID in an effect trace. -/
def countAttempts (id : Int) (evs : List NtfyEvent) : Nat :=
  evs.countP (fun e => e = NtfyEvent.networkAttempt id)

/-- One for an item that could still produce a network attempt for the
given ID in some future sweep (`Waiting` with the notification-attempted
flag clear), zero otherwise. -/
def attemptBudget (id : Int) (it : Item) : Nat :=
  if it.ID = id ∧ it.Status = "Waiting" ∧ it.NtfyAttempted = false then 1 else 0

/-- Total attempt budget of an item list for the given ID. -/
def ntfyBudget (id : Int) (items : List Item) : Nat :=
  (items.map (attemptBudget id)).sum

/-- Ordering check on an effect trace: every network attempt for the
given ID is preceded by a flag write for that ID (`seen` records whether
one has occurred already). -/
def flagBeforeAttempt (id : Int) : Bool → List NtfyEvent → Bool
  | _, [] => true
  | seen, NtfyEvent.statusWrite _ :: rest => flagBeforeAttempt id seen rest
  | seen, NtfyEvent.flagWrite j :: rest => flagBeforeAttempt id (seen || j = id) rest
  | seen, NtfyEvent.networkAttempt j :: rest =>
    if j = id then seen && flagBeforeAttempt id seen rest
    else flagBeforeAttempt id seen rest

theorem countAttempts_append (id : Int) (l1 l2 : List NtfyEvent) :
    countAttempts id (l1 ++ l2) = countAttempts id l1 + countAttempts id l2 := by
  simp [countAttempts, List.countP_append]

theorem ntfyBudget_cons (id : Int) (a : Item) (t : List Item) :
    ntfyBudget id (a :: t) = attemptBudget id a + ntfyBudget id t := by
  simp [ntfyBudget]

theorem promoteEventsOf_budget (cfg : NtfyConfig) (now id : Int) (it : Item) :
    countAttempts id (promoteEventsOf cfg now it) +
      attemptBudget id (promoteItemPure now it) ≤ attemptBudget id it := by
  by_cases hp : it.Status = "Waiting" ∧ it.PurchaseAllowedAt ≤ now <;>
    by_cases hid : it.ID = id <;>
      cases hfl : it.NtfyAttempted <;>
        cases hcfg : cfgConfigured cfg <;>
          simp [promoteEventsOf, promoteItemPure, attemptBudget, countAttempts,
            List.countP_cons, List.countP_nil, not_lt, hp, hid, hfl, hcfg]

theorem sweep_budget (cfg : NtfyConfig) (now id : Int) :
    ∀ items : List Item,
      countAttempts id ((items.map (promoteEventsOf cfg now)).flatten) +
        ntfyBudget id (items.map (promoteItemPure now)) ≤ ntfyBudget id items := by
  intro items
  induction items with
  | nil => simp [countAttempts, ntfyBudget]
  | cons a t ih =>
    have ha := promoteEventsOf_budget cfg now id a
    rw [List.map_cons, List.map_cons, List.flatten_cons, countAttempts_append,
        ntfyBudget_cons, ntfyBudget_cons]
    omega

theorem ntfyBudget_zero_of_all (id : Int) :
    ∀ items : List Item, (∀ x ∈ items, attemptBudget id x = 0) →
      ntfyBudget id items = 0 := by
  intro items h
  induction items with
  | nil => rfl
  | cons a t ih =>
    rw [ntfyBudget_cons]
    have ha : attemptBudget id a = 0 := h a (by simp)
    have ht := ih (fun x hx => h x (by simp [hx]))
    omega

theorem ntfyBudget_le_one (id : Int) :
    ∀ items : List Item, (items.map Item.ID).Nodup → ntfyBudget id items ≤ 1 := by
  intro items hnd
  induction items with
  | nil => simp [ntfyBudget]
  | cons a t ih =>
    rw [List.map_cons, List.nodup_cons] at hnd
    rw [ntfyBudget_cons]
    by_cases hid : a.ID = id
    · have ht : ntfyBudget id t = 0 := by
        apply ntfyBudget_zero_of_all
        intro x hx
        have hxid : ¬ x.ID = id := by
          intro hcontra
          exact hnd.1 (List.mem_map.mpr ⟨x, hx, hcontra.trans hid.symm⟩)
        simp [attemptBudget, hxid]
      have hb : attemptBudget id a ≤ 1 := by
        unfold attemptBudget
        split <;> omega
      omega
    · have ha : attemptBudget id a = 0 := by simp [attemptBudget, hid]
      have ht := ih hnd.2
      omega

theorem runSweeps_budget (cfg : NtfyConfig) (id : Int) :
    ∀ (ts : List Int) (items : List Item), (items.map Item.ID).Nodup →
      countAttempts id (runSweeps cfg ts items).2 ≤ ntfyBudget id items := by
  intro ts
  induction ts with
  | nil =>
    intro items hnd
    simp [runSweeps, countAttempts]
  | cons t ts ih =>
    intro items hnd
    have hspec := promoteReadyItemsLocked_spec cfg t items hnd
    have hnd' : ((items.map (promoteItemPure t)).map Item.ID).Nodup := by
      rw [map_ID_map_promote]
      exact hnd
    have hsw := sweep_budget cfg t id items
    have hih := ih (items.map (promoteItemPure t)) hnd'
    simp only [runSweeps, hspec]
    rw [countAttempts_append]
    omega

theorem flagBeforeAttempt_true (id : Int) :
    ∀ evs : List NtfyEvent, flagBeforeAttempt id true evs = true := by
  intro evs
  induction evs with
  | nil => rfl
  | cons e rest ih =>
    cases e with
    | statusWrite j => simp [flagBeforeAttempt, ih]
    | flagWrite j => simp [flagBeforeAttempt, ih]
    | networkAttempt j => by_cases hj : j = id <;> simp [flagBeforeAttempt, hj, ih]

theorem flagBeforeAttempt_block (cfg : NtfyConfig) (now id : Int) (it : Item)
    (rest : List NtfyEvent) (hrest : ∀ s, flagBeforeAttempt id s rest = true) :
    ∀ seen, flagBeforeAttempt id seen (promoteEventsOf cfg now it ++ rest) = true := by
  intro seen
  by_cases hp : it.Status = "Waiting" ∧ it.PurchaseAllowedAt ≤ now
  · cases hfl : it.NtfyAttempted
    · cases hcfg : cfgConfigured cfg
      · simp [promoteEventsOf, not_lt, hp, hfl, hcfg, flagBeforeAttempt, hrest]
      · by_cases hj : it.ID = id
        · simp [promoteEventsOf, not_lt, hp, hfl, hcfg, flagBeforeAttempt, hj, hrest,
            flagBeforeAttempt_true]
        · simp [promoteEventsOf, not_lt, hp, hfl, hcfg, flagBeforeAttempt, hj, hrest]
    · simp [promoteEventsOf, not_lt, hp, hfl, flagBeforeAttempt, hrest]
  · simp [promoteEventsOf, not_lt, hp, hrest]

theorem flagBeforeAttempt_blocks (cfg : NtfyConfig) (now id : Int) :
    ∀ (items : List Item) (rest : List NtfyEvent),
      (∀ s, flagBeforeAttempt id s rest = true) →
      ∀ seen, flagBeforeAttempt id seen
        ((items.map (promoteEventsOf cfg now)).flatten ++ rest) = true := by
  intro items
  induction items with
  | nil =>
    intro rest hrest seen
    simpa using hrest seen
  | cons a t ih =>
    intro rest hrest seen
    rw [List.map_cons, List.flatten_cons, List.append_assoc]
    exact flagBeforeAttempt_block cfg now id a _ (fun s => ih rest hrest s) seen

theorem runSweeps_flagBefore (cfg : NtfyConfig) (id : Int) :
    ∀ (ts : List Int) (items : List Item), (items.map Item.ID).Nodup →
      ∀ seen, flagBeforeAttempt id seen (runSweeps cfg ts items).2 = true := by
  intro ts
  induction ts with
  | nil =>
    intro items hnd seen
    rfl
  | cons t ts ih =>
    intro items hnd seen
    have hspec := promoteReadyItemsLocked_spec cfg t items hnd
    have hnd' : ((items.map (promoteItemPure t)).map Item.ID).Nodup := by
      rw [map_ID_map_promote]
      exact hnd
    simp only [runSweeps, hspec]
    exact flagBeforeAttempt_blocks cfg t id items _ (fun s => ih _ hnd' s) seen

theorem ntfyBudget_zero_of_flagged (id : Int) (items : List Item)
    (hnd : (items.map Item.ID).Nodup) (it : Item) (hit : it ∈ items) (hid : it.ID = id)
    (hfl : it.NtfyAttempted = true) : ntfyBudget id items = 0 := by
  apply ntfyBudget_zero_of_all
  intro x hx
  by_cases hxid : x.ID = id
  · have hxit : x = it :=
      List.inj_on_of_nodup_map hnd hx hit (hxid.trans hid.symm)
    rw [hxit]
    simp [attemptBudget, hfl]
  · simp [attemptBudget, hxid]

/-- C3: over every sequence of promotion sweeps (page loads, mutation
preambles, scheduler ticks) on a list with unique item IDs, at most one
ntfy network attempt is made for a given item ID; every attempt in the
trace is preceded by the durable flag write for that ID; and if the
item's notification-attempted flag is already set at the start, no
attempt at all occurs — all independent of whether the endpoint/topic
is configured. -/
theorem C3_at_most_once (cfg : NtfyConfig) (ts : List Int) (items : List Item) (id : Int)
    (hnd : (items.map Item.ID).Nodup) :
    countAttempts id (runSweeps cfg ts items).2 ≤ 1 ∧
    flagBeforeAttempt id false (runSweeps cfg ts items).2 = true ∧
    (∀ it ∈ items, it.ID = id → it.NtfyAttempted = true →
      countAttempts id (runSweeps cfg ts items).2 = 0) := by
  refine ⟨?_, ?_, ?_⟩
  · exact le_trans (runSweeps_budget cfg id ts items hnd) (ntfyBudget_le_one id items hnd)
  · exact runSweeps_flagBefore cfg id ts items hnd false
  · intro it hit hid hfl
    have hz := ntfyBudget_zero_of_flagged id items hnd it hit hid hfl
    have hb := runSweeps_budget cfg id ts items hnd
    omega

theorem C3_at_most_once_witness :
    (([sampleItem 7 "Waiting" 3 false].map Item.ID).Nodup) ∧
    (countAttempts 7 (runSweeps ⟨"https://u", "t"⟩ [5, 9] [sampleItem 7 "Waiting" 3 false]).2 ≤ 1 ∧
     flagBeforeAttempt 7 false
       (runSweeps ⟨"https://u", "t"⟩ [5, 9] [sampleItem 7 "Waiting" 3 false]).2 = true ∧
     (∀ it ∈ [sampleItem 7 "Waiting" 3 false], it.ID = 7 → it.NtfyAttempted = true →
       countAttempts 7 (runSweeps ⟨"https://u", "t"⟩ [5, 9] [sampleItem 7 "Waiting" 3 false]).2 = 0)) :=
  ⟨by decide, C3_at_most_once ⟨"https://u", "t"⟩ [5, 9] [sampleItem 7 "Waiting" 3 false] 7 (by decide)⟩
